import Mathlib

/-!
Verification development for the Aetios-Med agent orchestration core
(`backend/app/agent/orchestrator.py` and the dispatch entry point of
`backend/app/agent/tools.py`).

The embedding models:
* JSON values (`JVal`) as exchanged with the Python `json` module, with
  `jsonDumps` / `jsonDumpsIndent` mirroring `json.dumps` (default
  separators, `ensure_ascii=True`) and `jsonLoads` mirroring `json.loads`.
  Numbers are modelled as arbitrary-precision integers; JSON fractional or
  exponent forms are treated as a parse failure, and the `NaN/Infinity`
  extensions are not modelled, since no value arising in the verified
  operations is a float.  Lone surrogate escapes, which CPython would keep
  as unpaired surrogate code units, are treated as a parse failure: Lean
  characters are Unicode scalar values, and no output of `json.dumps`
  contains a lone surrogate escape.
* the `TOOL_CALL:` line scanner of `AgentOrchestrator._parse_tool_calls`,
* the dispatcher `AgentOrchestrator._execute_tool_call` / `execute_tool`
  with the capability bodies (external database operations) abstracted as
  a function returning either a value or a raised-exception message,
* the bounded iteration loop `process_message` / `stream_message`, with
  the completion gateway abstracted as the list of texts it returns, and
* the conversation operations `reset` / `export_conversation` /
  `load_conversation`.
-/

/-- JSON values as handled by the Python `json` module (numbers restricted
to integers, see the file comment). An object is a key-value list in
insertion order; `jsonLoads` never produces duplicate keys, mirroring
Python dict construction. -/
inductive JVal where
  | null
  | bool (b : Bool)
  | num (n : Int)
  | str (s : String)
  | arr (xs : List JVal)
  | obj (kvs : List (String × JVal))

/-- Opening brace character. -/
def lbrace : Char := '\x7b'

/-- Closing brace character. -/
def rbrace : Char := '\x7d'

/-- Decimal digit character for a value below 10. -/
def digitCh (n : Nat) : Char := Char.ofNat (48 + n)

/-- Decimal digits of `n`, most significant first, accumulated onto `acc`.
The fuel is always called with at least `n + 1`, which suffices. -/
def natToCharsAux : Nat → Nat → List Char → List Char
  | 0, _, acc => acc
  | fuel + 1, n, acc =>
      let acc2 := digitCh (n % 10) :: acc
      if n < 10 then acc2 else natToCharsAux fuel (n / 10) acc2

/-- Decimal representation of a natural number, as Python `repr`. -/
def natToChars (n : Nat) : List Char := natToCharsAux (n + 1) n []

/-- Decimal representation of an integer, as Python `repr`. -/
def intToChars (i : Int) : List Char :=
  if i < 0 then '-' :: natToChars i.natAbs else natToChars i.toNat

/-- Hexadecimal digit character (lowercase, as Python `\u%04x`). -/
def hexCh (n : Nat) : Char := if n < 10 then Char.ofNat (48 + n) else Char.ofNat (87 + n)

/-- Four lowercase hex digits of `n < 0x10000`. -/
def hex4Chars (n : Nat) : List Char :=
  [hexCh (n / 4096 % 16), hexCh (n / 256 % 16), hexCh (n / 16 % 16), hexCh (n % 16)]

/-- JSON escape of one character, as the CPython encoder with
`ensure_ascii=True`: the two-character escapes for quote, backslash and
the common control characters, `\uXXXX` for other control characters and
all non-ASCII characters, and a surrogate pair for astral characters. -/
def escapeChar (c : Char) : List Char :=
  if c = '"' then ['\\', '"']
  else if c = '\\' then ['\\', '\\']
  else if c = '\n' then ['\\', 'n']
  else if c = '\r' then ['\\', 'r']
  else if c = '\t' then ['\\', 't']
  else if c = '\x08' then ['\\', 'b']
  else if c = '\x0c' then ['\\', 'f']
  else if c.toNat < 0x20 ∨ 0x7f ≤ c.toNat then
    if c.toNat < 0x10000 then '\\' :: 'u' :: hex4Chars c.toNat
    else
      '\\' :: 'u' :: hex4Chars (0xd800 + (c.toNat - 0x10000) / 0x400) ++
        '\\' :: 'u' :: hex4Chars (0xdc00 + (c.toNat - 0x10000) % 0x400)
  else [c]

/-- JSON escape of a character sequence. -/
def escapeChars : List Char → List Char
  | [] => []
  | c :: cs => escapeChar c ++ escapeChars cs

/-- Serialized JSON string literal, quotes included. -/
def quoteChars (s : String) : List Char := '"' :: escapeChars s.data ++ ['"']

mutual

/-- Characters of `json.dumps(v)` with the default separators `", "` and
`": "`, `ensure_ascii=True`. -/
def dumpsChars : JVal → List Char
  | .null => 'n' :: ['u', 'l', 'l']
  | .bool true => 't' :: ['r', 'u', 'e']
  | .bool false => 'f' :: ['a', 'l', 's', 'e']
  | .num n => intToChars n
  | .str s => quoteChars s
  | .arr [] => ['[', ']']
  | .arr (x :: xs) => '[' :: dumpsChars x ++ dumpsCharsItems xs ++ [']']
  | .obj [] => [lbrace, rbrace]
  | .obj ((k, v) :: kvs) =>
      lbrace :: quoteChars k ++ ':' :: ' ' :: dumpsChars v ++ dumpsCharsMembers kvs ++ [rbrace]

/-- Trailing array items, each preceded by the `", "` separator. -/
def dumpsCharsItems : List JVal → List Char
  | [] => []
  | x :: xs => ',' :: ' ' :: dumpsChars x ++ dumpsCharsItems xs

/-- Trailing object members, each preceded by the `", "` separator. -/
def dumpsCharsMembers : List (String × JVal) → List Char
  | [] => []
  | (k, v) :: kvs => ',' :: ' ' :: quoteChars k ++ ':' :: ' ' :: dumpsChars v ++ dumpsCharsMembers kvs

end

/-- The string `json.dumps(v)` (default separators). -/
def jsonDumps (v : JVal) : String := String.mk (dumpsChars v)

/-- Newline followed by the two-space-per-level indentation used by
`json.dumps(..., indent=2)`. -/
def nlIndent (lvl : Nat) : List Char := '\n' :: List.replicate (2 * lvl) ' '

mutual

/-- Characters of `json.dumps(v, indent=2)` at nesting level `lvl`: with an
indent the item separator is `","` followed by a newline and indentation,
and the key separator is `": "`. -/
def dumpsIndChars (lvl : Nat) : JVal → List Char
  | .null => 'n' :: ['u', 'l', 'l']
  | .bool true => 't' :: ['r', 'u', 'e']
  | .bool false => 'f' :: ['a', 'l', 's', 'e']
  | .num n => intToChars n
  | .str s => quoteChars s
  | .arr [] => ['[', ']']
  | .arr (x :: xs) =>
      '[' :: nlIndent (lvl + 1) ++ dumpsIndChars (lvl + 1) x ++
        dumpsIndCharsItems (lvl + 1) xs ++ nlIndent lvl ++ [']']
  | .obj [] => [lbrace, rbrace]
  | .obj ((k, v) :: kvs) =>
      lbrace :: nlIndent (lvl + 1) ++ quoteChars k ++ ':' :: ' ' :: dumpsIndChars (lvl + 1) v ++
        dumpsIndCharsMembers (lvl + 1) kvs ++ nlIndent lvl ++ [rbrace]

/-- Trailing array items at indent level `lvl`, each preceded by `","` and
a fresh indented line. -/
def dumpsIndCharsItems (lvl : Nat) : List JVal → List Char
  | [] => []
  | x :: xs => ',' :: nlIndent lvl ++ dumpsIndChars lvl x ++ dumpsIndCharsItems lvl xs

/-- Trailing object members at indent level `lvl`. -/
def dumpsIndCharsMembers (lvl : Nat) : List (String × JVal) → List Char
  | [] => []
  | (k, v) :: kvs =>
      ',' :: nlIndent lvl ++ quoteChars k ++ ':' :: ' ' :: dumpsIndChars lvl v ++
        dumpsIndCharsMembers lvl kvs

end

/-- The string `json.dumps(v, indent=2)`. -/
def jsonDumpsIndent (v : JVal) : String := String.mk (dumpsIndChars 0 v)

mutual

/-- Dict-canonical values: every object, recursively, has pairwise distinct
keys.  Every value built by Python code (where objects are dicts) is
canonical. -/
def jwf : JVal → Bool
  | .null => true
  | .bool _ => true
  | .num _ => true
  | .str _ => true
  | .arr xs => jwfList xs
  | .obj kvs => (kvs.map Prod.fst).Nodup && jwfMembers kvs

/-- Canonicity of every element. -/
def jwfList : List JVal → Bool
  | [] => true
  | x :: xs => jwf x && jwfList xs

/-- Canonicity of every member value. -/
def jwfMembers : List (String × JVal) → Bool
  | [] => true
  | (_, v) :: kvs => jwf v && jwfMembers kvs

end

mutual

/-- Fuel needed by the recursive-descent parser to accept `v`. -/
def jfuel : JVal → Nat
  | .null => 1
  | .bool _ => 1
  | .num _ => 1
  | .str _ => 1
  | .arr xs => 1 + jfuelList xs
  | .obj kvs => 1 + jfuelMembers kvs

/-- Fuel needed to accept the element list of an array. -/
def jfuelList : List JVal → Nat
  | [] => 1
  | x :: xs => 1 + max (jfuel x) (jfuelList xs)

/-- Fuel needed to accept the member list of an object. -/
def jfuelMembers : List (String × JVal) → Nat
  | [] => 1
  | (_, v) :: kvs => 1 + max (jfuel v) (jfuelMembers kvs)

end

/-- JSON whitespace, as skipped by the `json.loads` scanner. -/
def isWsChar (c : Char) : Bool := c = ' ' || c = '\t' || c = '\n' || c = '\r'

/-- Drop leading JSON whitespace. -/
def skipWs (cs : List Char) : List Char := cs.dropWhile isWsChar

/-- Value of one hexadecimal digit, either case. -/
def hexVal (c : Char) : Option Nat :=
  if '0' ≤ c ∧ c ≤ '9' then some (c.toNat - 48)
  else if 'a' ≤ c ∧ c ≤ 'f' then some (c.toNat - 87)
  else if 'A' ≤ c ∧ c ≤ 'F' then some (c.toNat - 55)
  else none

/-- Value of a four-digit hexadecimal escape payload. -/
def hex4Val (h1 h2 h3 h4 : Char) : Option Nat :=
  match hexVal h1, hexVal h2, hexVal h3, hexVal h4 with
  | some a, some b, some c, some d => some (a * 4096 + b * 256 + c * 16 + d)
  | _, _, _, _ => none

/-- Single-character JSON escapes. -/
def escSimple (c : Char) : Option Char :=
  if c = '"' then some '"'
  else if c = '\\' then some '\\'
  else if c = '/' then some '/'
  else if c = 'b' then some '\x08'
  else if c = 'f' then some '\x0c'
  else if c = 'n' then some '\n'
  else if c = 'r' then some '\r'
  else if c = 't' then some '\t'
  else none

/-- Decode the escape tail of a surrogate pair: expects `\uXXXX` with a
low surrogate and combines it with the high surrogate `n`. -/
def classifyPair (n : Nat) : List Char → Option (Char × List Char)
  | b1 :: u1 :: g1 :: g2 :: g3 :: g4 :: r4 =>
    if b1 = '\\' ∧ u1 = 'u' then
      match hex4Val g1 g2 g3 g4 with
      | none => none
      | some m =>
        if 0xdc00 ≤ m ∧ m < 0xe000 then
          some (Char.ofNat (0x10000 + (n - 0xd800) * 0x400 + (m - 0xdc00)), r4)
        else none
    else none
  | _ => none

/-- Decode a `\uXXXX` escape payload (after the `u`): a high surrogate
must be followed by a low one; a lone surrogate fails (see the file
comment). -/
def classifyU : List Char → Option (Char × List Char)
  | h1 :: h2 :: h3 :: h4 :: r3 =>
    (match hex4Val h1 h2 h3 h4 with
     | none => none
     | some n =>
       if 0xd800 ≤ n ∧ n < 0xdc00 then classifyPair n r3
       else if 0xdc00 ≤ n ∧ n < 0xe000 then none
       else some (Char.ofNat n, r3))
  | _ => none

/-- Decode one escape sequence after the backslash: the decoded character
and the remaining input. -/
def classifyEsc : List Char → Option (Char × List Char)
  | [] => none
  | e :: r =>
    if e = 'u' then classifyU r
    else
      match escSimple e with
      | some d => some (d, r)
      | none => none

/-- Scan a JSON string body after the opening quote: returns the decoded
characters and the input after the closing quote.  Unescaped control
characters are rejected (strict mode).  The scan consumes at least one
character per step, so a fuel of the input length plus one never runs out;
callers pass exactly that. -/
def parseStrAux : Nat → List Char → Option (List Char × List Char)
  | 0, _ => none
  | _ + 1, [] => none
  | f + 1, c :: rest =>
    if c = '"' then some ([], rest)
    else if c = '\\' then
      match classifyEsc rest with
      | none => none
      | some (d, r2) => (parseStrAux f r2).map (fun p => (d :: p.1, p.2))
    else if c.toNat < 0x20 then none
    else (parseStrAux f rest).map (fun p => (c :: p.1, p.2))

/-- Numeric value of a digit run. -/
def digitsVal (ds : List Char) : Nat := ds.foldl (fun a c => a * 10 + (c.toNat - 48)) 0

/-- Scan an unsigned JSON integer: a leading `0` stands alone (the JSON
grammar forbids leading zeros), otherwise a maximal digit run. -/
def parseUIntTok : List Char → Option (Nat × List Char)
  | [] => none
  | c :: r =>
    if c = '0' then some (0, r)
    else if c.isDigit then
      some (digitsVal ((c :: r).takeWhile (·.isDigit)), (c :: r).dropWhile (·.isDigit))
    else none

/-- Scan a signed JSON integer. -/
def parseNumTok : List Char → Option (Int × List Char)
  | [] => none
  | c :: r =>
    if c = '-' then (parseUIntTok r).map (fun p => (-(p.1 : Int), p.2))
    else (parseUIntTok (c :: r)).map (fun p => ((p.1 : Int), p.2))

/-- Fraction or exponent continuation: such a number is a float, outside
this model (see the file comment). -/
def floatFollows : List Char → Bool
  | c :: _ => c = '.' || c = 'e' || c = 'E'
  | [] => false

/-- Python dict insertion: an existing key keeps its position and takes the
new value, a fresh key is appended. -/
def dictInsert (kvs : List (String × JVal)) (k : String) (v : JVal) : List (String × JVal) :=
  if kvs.any (fun p => p.1 = k) then kvs.map (fun p => if p.1 = k then (k, v) else p)
  else kvs ++ [(k, v)]

/-- Build a dict from parsed members in order, last value winning. -/
def dictFromPairs (kvs : List (String × JVal)) : List (String × JVal) :=
  kvs.foldl (fun acc p => dictInsert acc p.1 p.2) []

/-- Python `str.startswith` on character lists (pattern first). -/
def startsWithChars : List Char → List Char → Bool
  | [], _ => true
  | _ :: _, [] => false
  | p :: ps, c :: cs => p == c && startsWithChars ps cs

/-- Keyword characters. -/
def nullKw : List Char := ['n', 'u', 'l', 'l']

/-- Keyword characters. -/
def trueKw : List Char := ['t', 'r', 'u', 'e']

/-- Keyword characters. -/
def falseKw : List Char := ['f', 'a', 'l', 's', 'e']

mutual

/-- Recursive-descent JSON value scanner, faithful to the `json.loads`
grammar on non-float inputs: skips leading whitespace, then dispatches on
the first character. -/
def parseVal : Nat → List Char → Option (JVal × List Char)
  | 0, _ => none
  | f + 1, s =>
    let t := skipWs s
    if startsWithChars nullKw t then some (.null, t.drop 4)
    else if startsWithChars trueKw t then some (.bool true, t.drop 4)
    else if startsWithChars falseKw t then some (.bool false, t.drop 5)
    else
      match t with
      | [] => none
      | c :: r =>
        if c = '"' then (parseStrAux (r.length + 1) r).map (fun p => (JVal.str (String.mk p.1), p.2))
        else if c = '[' then
          (match skipWs r with
           | [] => none
           | c2 :: r2 =>
             if c2 = ']' then some (.arr [], r2)
             else (parseElems f r).map (fun p => (JVal.arr p.1, p.2)))
        else if c = '\x7b' then
          (match skipWs r with
           | [] => none
           | c2 :: r2 =>
             if c2 = '\x7d' then some (.obj [], r2)
             else (parseMembers f r).map (fun p => (JVal.obj (dictFromPairs p.1), p.2)))
        else
          match parseNumTok (c :: r) with
          | none => none
          | some (n, r2) => if floatFollows r2 then none else some (.num n, r2)

/-- Elements of a non-empty array, up to and including the closing
bracket. -/
def parseElems : Nat → List Char → Option (List JVal × List Char)
  | 0, _ => none
  | f + 1, s =>
    match parseVal f s with
    | none => none
    | some (v, r) =>
      match skipWs r with
      | [] => none
      | c :: r2 =>
        if c = ',' then (parseElems f r2).map (fun p => (v :: p.1, p.2))
        else if c = ']' then some ([v], r2)
        else none

/-- Members of a non-empty object, up to and including the closing brace,
as the raw pair list in textual order. -/
def parseMembers : Nat → List Char → Option (List (String × JVal) × List Char)
  | 0, _ => none
  | f + 1, s =>
    match skipWs s with
    | [] => none
    | c :: r =>
      if c = '"' then
        match parseStrAux (r.length + 1) r with
        | none => none
        | some (kcs, r1) =>
          match skipWs r1 with
          | [] => none
          | c2 :: r2 =>
            if c2 = ':' then
              match parseVal f r2 with
              | none => none
              | some (v, r3) =>
                match skipWs r3 with
                | [] => none
                | c3 :: r4 =>
                  if c3 = ',' then (parseMembers f r4).map (fun p => ((String.mk kcs, v) :: p.1, p.2))
                  else if c3 = '\x7d' then some ([(String.mk kcs, v)], r4)
                  else none
            else none
      else none

end

/-- The Python `json.loads`: a single value with only whitespace around
it; `none` models a raised `JSONDecodeError`. -/
def jsonLoads (s : String) : Option JVal :=
  match parseVal (s.data.length + 1) s.data with
  | some (v, rest) => if skipWs rest = [] then some v else none
  | none => none

/-! ## The `TOOL_CALL:` line scanner (`AgentOrchestrator._parse_tool_calls`) -/

/-- Whitespace stripped by Python `str.strip()`. -/
def pyIsSpace (c : Char) : Bool :=
  c = ' ' || c = '\t' || c = '\n' || c = '\r' || c = '\x0b' || c = '\x0c'

/-- Python `str.strip()`. -/
def pyStrip (l : List Char) : List Char :=
  ((l.dropWhile pyIsSpace).reverse.dropWhile pyIsSpace).reverse

/-- Python `str.split('\n')`. -/
def splitLines : List Char → List (List Char)
  | [] => [[]]
  | c :: r =>
    match splitLines r with
    | [] => [[c]]
    | l :: ls => if c = '\n' then [] :: l :: ls else (c :: l) :: ls

/-- The scanner state of the argument-payload loop: brace counter (a Python
int, so it may go negative), string flag, pending-escape flag. -/
structure ScanSt where
  braceCount : Int
  inString : Bool
  escapeNext : Bool
deriving Repr, DecidableEq

/-- Start state of the payload scan. -/
def scanInit : ScanSt := ⟨0, false, false⟩

/-- One character step of the payload scan; the flag is true when this
character is the matching close paren and the loop breaks. -/
def scanStep (st : ScanSt) (c : Char) : ScanSt × Bool :=
  if st.escapeNext then ({ st with escapeNext := false }, false)
  else if c = '\\' then ({ st with escapeNext := true }, false)
  else if c = '"' then ({ st with inString := !st.inString }, false)
  else if !st.inString && c = '\x7b' then ({ st with braceCount := st.braceCount + 1 }, false)
  else if !st.inString && c = '\x7d' then ({ st with braceCount := st.braceCount - 1 }, false)
  else if !st.inString && c = ')' && st.braceCount == 0 then (st, true)
  else (st, false)

/-- Run the payload scan: the characters strictly before the matching close
paren, or `none` when the line ends first (unmatched parentheses). -/
def scanArgs (st : ScanSt) : List Char → Option (List Char)
  | [] => none
  | c :: rest =>
    let r := scanStep st c
    if r.2 then some [] else (scanArgs r.1 rest).map (fun t => c :: t)

/-- The literal line marker. -/
def tcMarker : List Char := "TOOL_CALL:".data

/-- Parse one line of model output: the tool name and the re-serialized
JSON arguments, or `none` for a non-candidate or malformed line (the
per-line `try`/`except` of the source, which logs and skips). -/
def toolLinePre (line : List Char) : Option (String × String) :=
  let l := pyStrip line
  if startsWithChars tcMarker l then
    let callStr := pyStrip (l.drop 10)
    match callStr.findIdx? (fun c => c = '(') with
    | none => none
    | some pidx =>
      let toolName := pyStrip (callStr.take pidx)
      match scanArgs scanInit (callStr.drop (pidx + 1)) with
      | none => none
      | some argChars =>
        let argsStr := pyStrip argChars
        if argsStr.isEmpty then some (String.mk toolName, jsonDumps (.obj []))
        else
          match jsonLoads (String.mk argsStr) with
          | none => none
          | some v => some (String.mk toolName, jsonDumps v)
  else none

/-- A parsed tool call record, as the dict built by the source:
`id`, `type: "function"` and the function name with its arguments
re-serialized by `json.dumps`. -/
structure ToolCallRec where
  id : String
  name : String
  arguments : String
deriving Repr, DecidableEq

/-- Sequential ids `call_0, call_1, …`: the source names each appended call
`call_{len(tool_calls)}`, which is its position among the successes. -/
def assignIds : Nat → List (String × String) → List ToolCallRec
  | _, [] => []
  | i, (n, a) :: rest => ⟨"call_" ++ String.mk (natToChars i), n, a⟩ :: assignIds (i + 1) rest

/-- The extractor `_parse_tool_calls`: split on newlines, parse each
candidate line, number the successes; `none` when no call was recognized. -/
def parseToolCalls (text : String) : Option (List ToolCallRec) :=
  let calls := assignIds 0 ((splitLines text.data).filterMap toolLinePre)
  if calls.isEmpty then none else some calls

/-! ## Conversation state and message constructors -/

/-- The orchestrator's mutable attributes. The model identifier is a `JVal`
because `load_conversation` installs whatever the `"model"` key holds. -/
structure OrchState where
  model : JVal
  maxIterations : Nat
  temperature : Rat
  messages : List JVal

/-- First lookup of a key in an object (objects built by this development
have pairwise distinct keys). -/
def objLookup (kvs : List (String × JVal)) (k : String) : Option JVal :=
  match kvs.find? (fun p => p.1 = k) with
  | some p => some p.2
  | none => none

/-- Test of Python `v == "s"` for a JSON value against a string literal. -/
def isStrEq (v : JVal) (s : String) : Bool :=
  match v with
  | .str t => t == s
  | _ => false

/-- The system message dict built by `_initialize_system_prompt`. -/
def mkSystemMessage (content : String) : JVal :=
  .obj [("role", .str "system"), ("content", .str content)]

/-- The user message dict of `add_user_message`. -/
def mkUserMessage (content : String) : JVal :=
  .obj [("role", .str "user"), ("content", .str content)]

/-- The dict stored for one parsed tool call. -/
def toolCallToJVal (tc : ToolCallRec) : JVal :=
  .obj [("id", .str tc.id), ("type", .str "function"),
        ("function", .obj [("name", .str tc.name), ("arguments", .str tc.arguments)])]

/-- The assistant message dict of `add_assistant_message`: the content and
tool-call keys are only set when truthy (a `None` or empty value is
dropped). -/
def mkAssistantMessage (content : Option String) (toolCalls : Option (List ToolCallRec)) : JVal :=
  .obj ([("role", JVal.str "assistant")]
    ++ (match content with
        | some c => if c = "" then [] else [("content", JVal.str c)]
        | none => [])
    ++ (match toolCalls with
        | some tcs => if tcs.isEmpty then [] else [("tool_calls", JVal.arr (tcs.map toolCallToJVal))]
        | none => []))

/-- The tool message dict of `add_tool_result`; the result is serialized
with `json.dumps`. -/
def mkToolResultMessage (tcId toolName : String) (result : JVal) : JVal :=
  .obj [("role", .str "tool"), ("tool_call_id", .str tcId), ("name", .str toolName),
        ("content", .str (jsonDumps result))]

/-- The fresh history installed by `_initialize_system_prompt`; the system
prompt text itself is loaded from a data file, so it is a parameter. -/
def initMessages (systemPrompt : String) : List JVal := [mkSystemMessage systemPrompt]

/-- The `reset` operation: replace the history with the single system
message, touching nothing else. -/
def resetConv (systemPrompt : String) (st : OrchState) : OrchState :=
  { st with messages := initMessages systemPrompt }

/-- The `add_user_message` operation. -/
def addUserMessage (st : OrchState) (content : String) : OrchState :=
  { st with messages := st.messages ++ [mkUserMessage content] }

/-! ## Prompt compiler (`_format_tools_for_prompt` over `TOOL_DEFINITIONS`) -/

/-- What the prompt compiler reads from one entry of `TOOL_DEFINITIONS`:
the function name, description, and the parameter property names in
declaration order. -/
structure ToolDef where
  name : String
  description : String
  paramNames : List String

/-- The `TOOL_DEFINITIONS` catalog of `tools.py`, restricted to the fields
the prompt compiler reads. -/
def TOOL_DEFINITIONS : List ToolDef := [
  ⟨"get_weak_topics",
   "Get topics where student confidence is below threshold. Use this to identify areas needing more study.",
   ["threshold"]⟩,
  ⟨"get_decaying_topics",
   "Get topics not reviewed in specified days according to spaced repetition. Use to find what needs review.",
   ["days"]⟩,
  ⟨"get_prerequisites",
   "Get prerequisite topics that should be mastered before studying the given topic.",
   ["topic_id"]⟩,
  ⟨"get_dependent_topics",
   "Get topics that depend on mastering the given topic. Shows what can be unlocked next.",
   ["topic_id"]⟩,
  ⟨"get_topic_details",
   "Get detailed information about a specific topic including confidence, last studied date, resources, and notes.",
   ["topic_id"]⟩,
  ⟨"search_notes",
   "Search through student\x27s notes and annotations to find relevant past learning.",
   ["query", "limit"]⟩,
  ⟨"get_anki_stats",
   "Get Anki flashcard statistics including cards due, accuracy, and retention rates.",
   ["topic_id"]⟩,
  ⟨"generate_quiz",
   "Generate a quiz for a specific topic to test understanding. Returns questions with multiple choice options.",
   ["topic_id", "num_questions", "difficulty"]⟩,
  ⟨"log_quiz_result",
   "Log the result of a quiz question to track learning progress and update confidence.",
   ["topic_id", "correct", "question"]⟩,
  ⟨"log_study_session",
   "Log a study session to track time spent and update topic progress.",
   ["topic_id", "duration_minutes", "notes"]⟩,
  ⟨"get_study_history",
   "Get history of past study sessions to review learning patterns and time allocation.",
   ["topic_id", "days"]⟩,
  ⟨"generate_study_plan",
   "Generate a personalized study plan based on weak areas, upcoming exams, and spaced repetition needs.",
   ["exam_id", "weeks"]⟩,
  ⟨"get_exam_readiness",
   "Assess readiness for an upcoming exam by analyzing confidence in covered topics and identifying weak areas.",
   ["exam_id"]⟩,
  ⟨"get_curriculum_overview",
   "Get overview of the entire medical curriculum structure with progress across all topics and categories.",
   []⟩,
  ⟨"update_confidence",
   "Update confidence level for a topic based on self-assessment or quiz performance.",
   ["topic_id", "confidence", "notes"]⟩,
  ⟨"add_exam",
   "Add a new exam to track and prepare for. This helps generate relevant study plans.",
   ["name", "date", "topics"]⟩,
  ⟨"get_upcoming_exams",
   "Get list of upcoming exams with dates and covered topics to prioritize study efforts.",
   []⟩,
  ⟨"open_resource",
   "Open a learning resource (textbook, video, guideline) in browser or appropriate application.",
   ["url"]⟩]

/-- Python `', '.join`. -/
def commaJoin : List String → String
  | [] => ""
  | [s] => s
  | s :: rest => s ++ ", " ++ commaJoin rest

/-- The per-tool catalog lines. -/
def toolCatalogLines : List ToolDef → String
  | [] => ""
  | t :: ts =>
      "- " ++ t.name ++ ": " ++ t.description ++ "\n"
        ++ (if t.paramNames.isEmpty then "" else "  Parameters: " ++ commaJoin t.paramNames ++ "\n")
        ++ toolCatalogLines ts

/-- The `_format_tools_for_prompt` text. -/
def formatToolsForPrompt (tools : List ToolDef) : String :=
  "You have access to the following tools:\n\n"
    ++ toolCatalogLines tools
    ++ "\nTo use a tool, respond with:\nTOOL_CALL: tool_name(\x7b\"arg\": \"value\"\x7d)\n\n"
    ++ "You can make multiple tool calls by putting each on a new line.\n"
    ++ "After tool results are provided, continue with your response.\n"

/-- The tool-catalog block rendered from the actual registry. -/
def toolsPromptText : String := formatToolsForPrompt TOOL_DEFINITIONS

/-! ## Completion step message preparation (`_call_llm`, lines 110-123)

The source copies the message list with `self.messages.copy()` — a shallow
copy, so the message dicts are shared — and then executes
`messages_with_tools[0]["content"] += f"\n\n{tools_prompt}"` when the head
is a system message.  The function below returns the pair (stored history
after the call, message list handed to the gateway); because of the shared
dict, an updated head appears in both.  `none` models an uncaught
exception (a missing key or a non-string content, where `+=` raises; the
Python corner where a list-valued content would be extended elementwise is
not modelled, as no claim reaches it). -/

/-- Python `d["content"] += suffix` on a JSON value. -/
def contentAppend (v : JVal) (suffix : String) : Option JVal :=
  match v with
  | .str s => some (.str (s ++ suffix))
  | _ => none

/-- Message preparation of `_call_llm` (see the section comment). -/
def callLlmPrep (toolsPrompt : String) (msgs : List JVal) : Option (List JVal × List JVal) :=
  match msgs with
  | [] => some ([], [.obj [("role", .str "system"), ("content", .str toolsPrompt)]])
  | m :: rest =>
    match m with
    | .obj kvs =>
      match objLookup kvs "role" with
      | none => none
      | some roleV =>
        if isStrEq roleV "system" then
          match objLookup kvs "content" with
          | none => none
          | some cv =>
            match contentAppend cv ("\n\n" ++ toolsPrompt) with
            | none => none
            | some cv2 =>
              let m2 := JVal.obj (dictInsert kvs "content" cv2)
              some (m2 :: rest, m2 :: rest)
        else
          some (msgs, .obj [("role", .str "system"), ("content", .str toolsPrompt)] :: msgs)
    | _ => none

/-! ## Tool dispatch (`execute_tool` of `tools.py`, `_execute_tool_call`) -/

/-- The keys of the `TOOL_FUNCTIONS` registry dict, in declaration
order. -/
def TOOL_FUNCTIONS_KEYS : List String :=
  ["get_weak_topics", "get_decaying_topics", "get_prerequisites", "get_dependent_topics",
   "get_topic_details", "search_notes", "get_anki_stats", "generate_quiz", "log_quiz_result",
   "log_study_session", "get_study_history", "generate_study_plan", "get_exam_readiness",
   "get_curriculum_overview", "update_confidence", "add_exam", "get_upcoming_exams",
   "open_resource"]

/-- Messages of exceptions whose text is produced inside CPython, not by
this repository: `str(e)` for a `json.JSONDecodeError` on a given source
text, and for the `TypeError` raised when the db session is injected into
a non-dict argument value.  Theorems quantify over this oracle, so nothing
proved depends on the exact wording. -/
structure PyErr where
  jsonDecodeMsg : String → String
  typeErrMsg : JVal → String

/-- The `execute_tool` entry point of `tools.py`: an unregistered name
raises `ValueError(f"Unknown tool: {tool_name}")`, a registered one awaits
the capability body.  `impl` abstracts the bodies (external async database
operations): `.error e` models a raised exception with `str(e) = e`,
including keyword-binding failures of `func(**arguments)`. -/
def executeTool (impl : String → JVal → Except String JVal) (toolName : String) (args : JVal) :
    Except String JVal :=
  if TOOL_FUNCTIONS_KEYS.contains toolName then impl toolName args
  else .error ("Unknown tool: " ++ toolName)

/-- The db-session injection of `_execute_tool_call`: with a session at
hand and no `'db'` key already supplied, the session is added to the
arguments.  A non-dict argument value raises on the key test or on the
item assignment (abstracted through the oracle; the Python corner where a
string value containing `"db"` would defer the failure to invocation is
not distinguished, as the eventual outcome is a caught exception either
way). -/
def injectDb (pe : PyErr) (db : Option JVal) (args : JVal) : Except String JVal :=
  match db with
  | none => .ok args
  | some d =>
    match args with
    | .obj kvs =>
      if kvs.any (fun p => p.1 = "db") then .ok (.obj kvs)
      else .ok (.obj (kvs ++ [("db", d)]))
    | other => .error (pe.typeErrMsg other)

/-- The dispatcher `_execute_tool_call`: decode the argument string, inject
the session, run the tool; every exception is caught at this boundary and
converted to the structured result `\x7b"error": str(e)\x7d`. -/
def executeToolCall (pe : PyErr) (impl : String → JVal → Except String JVal) (db : Option JVal)
    (tc : ToolCallRec) : JVal :=
  match jsonLoads tc.arguments with
  | none => .obj [("error", .str (pe.jsonDecodeMsg tc.arguments))]
  | some args =>
    match injectDb pe db args with
    | .error e => .obj [("error", .str e)]
    | .ok args2 =>
      match executeTool impl tc.name args2 with
      | .ok v => v
      | .error e => .obj [("error", .str e)]

/-! ## The iteration loop (`process_message`, `stream_message`) -/

/-- The fixed apologetic fallback returned when the iteration budget is
exhausted. -/
def FALLBACK_REPLY : String :=
  "I apologize, but I need to break this down into smaller steps. Could you please rephrase your question?"

/-- Outcome of one `process_message` run: the returned text (`none` models
an uncaught exception), the stored history, the number of completion
calls made, and the gateway responses not consumed. -/
structure RunOut where
  result : Option String
  messages : List JVal
  llmCalls : Nat
  responsesLeft : List String

/-- Sequential dispatch of one batch: each call appends exactly one
tool-role message, in extractor order, before the next dispatch. -/
def appendToolResults (execTC : ToolCallRec → JVal) (msgs : List JVal) :
    List ToolCallRec → List JVal
  | [] => msgs
  | tc :: rest => appendToolResults execTC (msgs ++ [mkToolResultMessage tc.id tc.name (execTC tc)]) rest

/-- The `while iteration < max_iterations` loop of `process_message`,
parameterized by the dispatcher and by the texts the completion gateway
returns in order.  Running out of supplied responses models the gateway
raising (a hard failure propagated to the caller); note the preparation
step has already updated the stored head by then, as in the source. -/
def runLoop (execTC : ToolCallRec → JVal) (toolsPrompt : String) :
    Nat → List String → List JVal → Nat → RunOut
  | 0, responses, msgs, calls => ⟨some FALLBACK_REPLY, msgs, calls, responses⟩
  | fuel + 1, responses, msgs, calls =>
    match callLlmPrep toolsPrompt msgs with
    | none => ⟨none, msgs, calls, responses⟩
    | some (stored, _rendered) =>
      match responses with
      | [] => ⟨none, stored, calls, responses⟩
      | r :: rest =>
        match parseToolCalls r with
        | some tcs =>
          runLoop execTC toolsPrompt fuel rest
            (appendToolResults execTC (stored ++ [mkAssistantMessage none (some tcs)]) tcs)
            (calls + 1)
        | none => ⟨some r, stored ++ [mkAssistantMessage (some r) none], calls + 1, rest⟩

/-- The `process_message` operation: append the user message, then run the
bounded loop with the real tool-catalog block. -/
def processMessage (execTC : ToolCallRec → JVal) (responses : List String) (st : OrchState)
    (userMsg : String) : Option String × OrchState × Nat × List String :=
  let out := runLoop execTC toolsPromptText st.maxIterations responses
    (st.messages ++ [mkUserMessage userMsg]) 0
  (out.result, { st with messages := out.messages }, out.llmCalls, out.responsesLeft)

/-- The `stream_message` operation: it appends the user message itself and
then, inside its single loop iteration, awaits the full `process_message`
on the same text (which appends the user message again), yields the one
resulting chunk and breaks.  With a zero budget the loop body never runs
and nothing is yielded. -/
def streamMessage (execTC : ToolCallRec → JVal) (responses : List String) (st : OrchState)
    (userMsg : String) : List String × OrchState × Nat × List String :=
  let st1 := addUserMessage st userMsg
  if st.maxIterations = 0 then ([], st1, 0, responses)
  else
    match processMessage execTC responses st1 userMsg with
    | (none, st2, n, rest) => ([], st2, n, rest)
    | (some t, st2, n, rest) => ([t], st2, n, rest)

/-! ## Export and import (`export_conversation`, `load_conversation`) -/

/-- The `export_conversation` operation: `json.dumps` with `indent=2` of
the model identifier, a timestamp (produced by `datetime`, external, so a
parameter) and the messages. -/
def exportConversation (timestamp : String) (st : OrchState) : String :=
  jsonDumpsIndent (.obj [("model", st.model), ("timestamp", .str timestamp),
                         ("messages", .arr st.messages)])

/-- The `load_conversation` operation: parse, then replace the history
with `data.get("messages", [])` and the model with
`data.get("model", self.model)`.  `none` models a raised exception: a
decode failure, or `data.get` on a non-dict.  (A `"messages"` value that
is not an array would be stored wholesale and break every later append;
that unusable state is not representable here and also maps to `none`.) -/
def loadConversation (s : String) (st : OrchState) : Option OrchState :=
  match jsonLoads s with
  | some (.obj kvs) =>
    (match objLookup kvs "messages" with
     | some (.arr l) => some { st with messages := l, model := (objLookup kvs "model").getD st.model }
     | some _ => none
     | none => some { st with messages := [], model := (objLookup kvs "model").getD st.model })
  | some _ => none
  | none => none

/-! ## Specification-side helper predicates -/

/-- A continuation after a serialized number must not extend the numeral:
no digit, and no fraction or exponent mark. -/
def numOk (rest : List Char) : Prop :=
  ∀ c, rest.head? = some c → c.isDigit = false ∧ c ≠ '.' ∧ c ≠ 'e' ∧ c ≠ 'E'

/-- Scanner state of the payload loop after consuming the first `k`
characters of `cs`. -/
def scanStateAt (cs : List Char) (k : Nat) : ScanSt :=
  (cs.take k).foldl (fun st c => (scanStep st c).1) scanInit

/-- The payload loop breaks at index `k` of `cs`: position `k` holds the
first close paren seen outside a string at brace depth 0 (and not consumed
by a pending backslash escape). -/
def scanStopsAt (cs : List Char) (k : Nat) : Prop :=
  ∃ c, cs.get? k = some c ∧ (scanStep (scanStateAt cs k) c).2 = true

/-- A stripped line carrying the `TOOL_CALL:` marker. -/
def isToolCallCandidate (line : List Char) : Bool :=
  startsWithChars tcMarker (pyStrip line)

/-- A candidate line whose payload scan never finds the matching close
paren (the "unmatched parentheses" warning path of the source). -/
def unmatchedParenLine (line : List Char) : Bool :=
  isToolCallCandidate line &&
    (match (pyStrip ((pyStrip line).drop 10)).findIdx? (fun c => c = '(') with
     | none => false
     | some pidx =>
       (scanArgs scanInit ((pyStrip ((pyStrip line).drop 10)).drop (pidx + 1))).isNone)

/-- The block of tool-role messages appended for one dispatched batch, one
message per extracted call, in extractor order. -/
def mkToolResultsFor (execTC : ToolCallRec → JVal) (tcs : List ToolCallRec) : List JVal :=
  tcs.map (fun tc => mkToolResultMessage tc.id tc.name (execTC tc))

/-! ## Lemmas: decimal digits -/

/-- Character facts for one decimal digit. -/
theorem digitCh_facts : ∀ m, m < 10 → (digitCh m).isDigit = true ∧ (digitCh m).toNat = 48 + m := by
  decide

/-- The accumulator only ever receives a suffix appended. -/
theorem natToCharsAux_append : ∀ f n acc, natToCharsAux f n acc = natToCharsAux f n [] ++ acc := by
  intro f
  induction f with
  | zero => intro n acc; simp [natToCharsAux]
  | succ f ih =>
      intro n acc
      by_cases h : n < 10
      · simp [natToCharsAux, h]
      · simp only [natToCharsAux, h, if_false]
        rw [ih (n / 10) (digitCh (n % 10) :: acc), ih (n / 10) [digitCh (n % 10)]]
        simp

/-- A digit run is produced for every input. -/
theorem natToCharsAux_ne_nil (f n : Nat) : natToCharsAux (f + 1) n [] ≠ [] := by
  by_cases h : n < 10
  · simp [natToCharsAux, h]
  · simp only [natToCharsAux, h, if_false]
    rw [natToCharsAux_append]
    simp

/-- The decimal representation is never empty. -/
theorem natToChars_ne_nil (n : Nat) : natToChars n ≠ [] := natToCharsAux_ne_nil n n

/-- Every produced character is a decimal digit. -/
theorem natToCharsAux_digits : ∀ f n, n + 1 ≤ f →
    ∀ c ∈ natToCharsAux f n [], c.isDigit = true := by
  intro f
  induction f with
  | zero => intro n hf; omega
  | succ f ih =>
      intro n hf c hc
      by_cases h : n < 10
      · simp [natToCharsAux, h] at hc
        subst hc
        exact (digitCh_facts (n % 10) (Nat.mod_lt n (by omega))).1
      · simp only [natToCharsAux, h, if_false] at hc
        rw [natToCharsAux_append] at hc
        rcases List.mem_append.mp hc with h1 | h1
        · have hd : n / 10 < n := Nat.div_lt_self (by omega) (by omega)
          exact ih (n / 10) (by omega) c h1
        · have : c = digitCh (n % 10) := by simpa using h1
          subst this
          exact (digitCh_facts (n % 10) (Nat.mod_lt n (by omega))).1

/-- Folding the digit characters back recovers the number. -/
theorem digitsVal_natToCharsAux : ∀ f n, n + 1 ≤ f → digitsVal (natToCharsAux f n []) = n := by
  intro f
  induction f with
  | zero => intro n hf; omega
  | succ f ih =>
      intro n hf
      by_cases h : n < 10
      · simp [natToCharsAux, h, digitsVal, (digitCh_facts (n % 10) (Nat.mod_lt n (by omega))).2]
      · simp only [natToCharsAux, h, if_false]
        rw [natToCharsAux_append]
        have hd : n / 10 < n := Nat.div_lt_self (by omega) (by omega)
        simp only [digitsVal, List.foldl_append]
        rw [show List.foldl (fun a c => a * 10 + (c.toNat - 48)) 0 (natToCharsAux f (n / 10) [])
              = digitsVal (natToCharsAux f (n / 10) []) from rfl,
            ih (n / 10) (by omega)]
        simp [(digitCh_facts (n % 10) (Nat.mod_lt n (by omega))).2]
        omega

/-- A positive number starts with a nonzero digit. -/
theorem natToCharsAux_head : ∀ f n, n + 1 ≤ f → 1 ≤ n →
    ∃ c cs, natToCharsAux f n [] = c :: cs ∧ c ≠ '0' ∧ c.isDigit = true := by
  intro f
  induction f with
  | zero => intro n hf; omega
  | succ f ih =>
      intro n hf hn
      by_cases h : n < 10
      · refine ⟨digitCh (n % 10), [], by simp [natToCharsAux, h], ?_,
          (digitCh_facts (n % 10) (Nat.mod_lt n (by omega))).1⟩
        intro he
        have h1 := congrArg Char.toNat he
        rw [(digitCh_facts (n % 10) (Nat.mod_lt n (by omega))).2] at h1
        have h2 : ('0' : Char).toNat = 48 := by decide
        omega
      · simp only [natToCharsAux, h, if_false]
        rw [natToCharsAux_append]
        have hd : n / 10 < n := Nat.div_lt_self (by omega) (by omega)
        obtain ⟨c, cs, heq, hc0, hcd⟩ := ih (n / 10) (by omega) (by omega)
        exact ⟨c, cs ++ [digitCh (n % 10)], by rw [heq]; simp, hc0, hcd⟩

/-- A run satisfying the predicate passes through `takeWhile`. -/
theorem takeWhile_append_all {p : Char → Bool} :
    ∀ (l rest : List Char), (∀ c ∈ l, p c = true) →
      (l ++ rest).takeWhile p = l ++ rest.takeWhile p := by
  intro l
  induction l with
  | nil => intro rest _; simp
  | cons c cs ih =>
      intro rest h
      rw [List.cons_append, List.takeWhile_cons_of_pos (h c (by simp)),
        ih rest (fun d hd => h d (by simp [hd])), List.cons_append]

/-- A run satisfying the predicate is discarded by `dropWhile`. -/
theorem dropWhile_append_all {p : Char → Bool} :
    ∀ (l rest : List Char), (∀ c ∈ l, p c = true) →
      (l ++ rest).dropWhile p = rest.dropWhile p := by
  intro l
  induction l with
  | nil => intro rest _; simp
  | cons c cs ih =>
      intro rest h
      rw [List.cons_append, List.dropWhile_cons_of_pos (h c (by simp))]
      exact ih rest (fun d hd => h d (by simp [hd]))

/-- Every character of the decimal representation is a digit. -/
theorem natToChars_digits (n : Nat) : ∀ c ∈ natToChars n, c.isDigit = true :=
  natToCharsAux_digits (n + 1) n (le_refl _)

/-- Folding the decimal representation back recovers the number. -/
theorem digitsVal_natToChars (n : Nat) : digitsVal (natToChars n) = n :=
  digitsVal_natToCharsAux (n + 1) n (le_refl _)

/-- A positive number starts with a nonzero digit. -/
theorem natToChars_head (n : Nat) (h : 1 ≤ n) :
    ∃ c cs, natToChars n = c :: cs ∧ c ≠ '0' ∧ c.isDigit = true :=
  natToCharsAux_head (n + 1) n (le_refl _) h

/-- Scanning the decimal representation recovers the number and stops at a
non-digit continuation. -/
theorem parseUIntTok_rt (n : Nat) (rest : List Char)
    (hrest : ∀ c, rest.head? = some c → c.isDigit = false) :
    parseUIntTok (natToChars n ++ rest) = some (n, rest) := by
  have htwrest : rest.takeWhile (fun c => c.isDigit) = [] := by
    cases rest with
    | nil => rfl
    | cons r rs => simp [List.takeWhile_cons, hrest r rfl]
  have hdwrest : rest.dropWhile (fun c => c.isDigit) = rest := by
    cases rest with
    | nil => rfl
    | cons r rs => simp [List.dropWhile_cons, hrest r rfl]
  rcases Nat.eq_zero_or_pos n with h0 | hpos
  · subst h0
    have hz : natToChars 0 = ['0'] := by decide
    rw [hz]
    simp [parseUIntTok]
  · obtain ⟨c, cs, heq, hc0, hcd⟩ := natToChars_head n hpos
    have hall : ∀ d ∈ natToChars n, d.isDigit = true := natToChars_digits n
    have hlist : natToChars n ++ rest = c :: (cs ++ rest) := by rw [heq]; simp
    have htw : (c :: (cs ++ rest)).takeWhile (fun d => d.isDigit) = natToChars n := by
      rw [← hlist, takeWhile_append_all _ _ hall, htwrest, List.append_nil]
    have hdw : (c :: (cs ++ rest)).dropWhile (fun d => d.isDigit) = rest := by
      rw [← hlist, dropWhile_append_all _ _ hall, hdwrest]
    rw [hlist]
    simp only [parseUIntTok, hc0, if_false, hcd, if_true]
    rw [htw, hdw, digitsVal_natToChars n]

/-- Scanning the decimal representation of an integer. -/
theorem parseNumTok_rt (i : Int) (rest : List Char)
    (hrest : ∀ c, rest.head? = some c → c.isDigit = false) :
    parseNumTok (intToChars i ++ rest) = some (i, rest) := by
  by_cases hneg : i < 0
  · simp only [intToChars, hneg, if_true, List.cons_append, parseNumTok, if_pos rfl]
    rw [parseUIntTok_rt i.natAbs rest hrest]
    have hcast : -((i.natAbs : Int)) = i := by omega
    simp only [Option.map_some']
    rw [hcast]
  · simp only [intToChars, hneg, if_false]
    obtain ⟨c, cs, heq⟩ : ∃ c cs, natToChars i.toNat = c :: cs := by
      cases hh : natToChars i.toNat with
      | nil => exact absurd hh (natToChars_ne_nil _)
      | cons c cs => exact ⟨c, cs, rfl⟩
    have hcd : c.isDigit = true := natToChars_digits i.toNat c (by rw [heq]; simp)
    have hcm : c ≠ '-' := by
      intro he; subst he; exact absurd hcd (by decide)
    have hlist : natToChars i.toNat ++ rest = c :: (cs ++ rest) := by rw [heq]; simp
    rw [hlist, parseNumTok, if_neg hcm, ← hlist, parseUIntTok_rt i.toNat rest hrest]
    have hcast : ((i.toNat : Int)) = i := by omega
    simp only [Option.map_some']
    rw [hcast]


/-! ## Lemmas: string escaping -/

/-- Hex digit characters decode to their value. -/
theorem hexVal_hexCh : ∀ d, d < 16 → hexVal (hexCh d) = some d := by decide

/-- Four-digit hex encoding decodes to the value. -/
theorem hex4Val_hex4Chars (n : Nat) (h : n < 0x10000) :
    hex4Val (hexCh (n / 4096 % 16)) (hexCh (n / 256 % 16)) (hexCh (n / 16 % 16)) (hexCh (n % 16))
      = some n := by
  rw [hex4Val, hexVal_hexCh _ (Nat.mod_lt _ (by omega)), hexVal_hexCh _ (Nat.mod_lt _ (by omega)),
    hexVal_hexCh _ (Nat.mod_lt _ (by omega)), hexVal_hexCh _ (Nat.mod_lt _ (by omega))]
  exact congrArg some (by omega)

/-- The validity invariant of a Lean character, in arithmetic form. -/
theorem char_valid_nat (c : Char) :
    c.toNat < 0xd800 ∨ (0xdfff < c.toNat ∧ c.toNat < 0x110000) := c.valid

/-- Decoding a plain `\uXXXX` escape payload. -/
theorem classifyU_hex (n : Nat) (tail : List Char) (h9 : n < 0x10000)
    (hns1 : ¬(0xd800 ≤ n ∧ n < 0xdc00)) (hns2 : ¬(0xdc00 ≤ n ∧ n < 0xe000)) :
    classifyU (hex4Chars n ++ tail) = some (Char.ofNat n, tail) := by
  simp [hex4Chars, classifyU, hex4Val_hex4Chars n h9, hns1, hns2]

/-- Decoding a surrogate-pair escape. -/
theorem classifyU_pair (hi lo : Nat) (tail : List Char) (hhi16 : hi < 0x10000)
    (hlo16 : lo < 0x10000) (hh : 0xd800 ≤ hi ∧ hi < 0xdc00) (hl : 0xdc00 ≤ lo ∧ lo < 0xe000) :
    classifyU (hex4Chars hi ++ '\\' :: 'u' :: (hex4Chars lo ++ tail))
      = some (Char.ofNat (0x10000 + (hi - 0xd800) * 0x400 + (lo - 0xdc00)), tail) := by
  simp [hex4Chars, classifyU, classifyPair, hex4Val_hex4Chars hi hhi16,
    hex4Val_hex4Chars lo hlo16, hh, hl]

/-- The escape classifier on a unicode escape defers to `classifyU`. -/
theorem classifyEsc_u (r : List Char) : classifyEsc ('u' :: r) = classifyU r := by
  simp [classifyEsc]

/-- Decoding the escape of any character sequence recovers it exactly and
leaves the suffix after the closing quote, for any fuel above the decoded
length. -/
theorem parseStrAux_escape : ∀ (cs : List Char) (f : Nat) (rest : List Char), cs.length < f →
    parseStrAux f (escapeChars cs ++ '"' :: rest) = some (cs, rest) := by
  intro cs
  induction cs with
  | nil =>
      intro f rest hf
      cases f with
      | zero => omega
      | succ g => simp [escapeChars, parseStrAux]
  | cons c cs ih =>
      intro f rest hf
      cases f with
      | zero => omega
      | succ g =>
      have hg : cs.length < g := by simpa using hf
      have hv := char_valid_nat c
      rw [escapeChars, List.append_assoc]
      by_cases h1 : c = '"'
      · subst h1
        simp [escapeChar, parseStrAux, classifyEsc, escSimple, ih g _ hg]
      by_cases h2 : c = '\\'
      · subst h2
        simp [escapeChar, parseStrAux, classifyEsc, escSimple, ih g _ hg]
      by_cases h3 : c = '\n'
      · subst h3
        simp [escapeChar, parseStrAux, classifyEsc, escSimple, ih g _ hg]
      by_cases h4 : c = '\r'
      · subst h4
        simp [escapeChar, parseStrAux, classifyEsc, escSimple, ih g _ hg]
      by_cases h5 : c = '\t'
      · subst h5
        simp [escapeChar, parseStrAux, classifyEsc, escSimple, ih g _ hg]
      by_cases h6 : c = '\x08'
      · subst h6
        simp [escapeChar, parseStrAux, classifyEsc, escSimple, ih g _ hg]
      by_cases h7 : c = '\x0c'
      · subst h7
        simp [escapeChar, parseStrAux, classifyEsc, escSimple, ih g _ hg]
      by_cases h8 : c.toNat < 0x20 ∨ 0x7f ≤ c.toNat
      · by_cases h9 : c.toNat < 0x10000
        · have hns1 : ¬(0xd800 ≤ c.toNat ∧ c.toNat < 0xdc00) := by omega
          have hns2 : ¬(0xdc00 ≤ c.toNat ∧ c.toNat < 0xe000) := by omega
          simp only [escapeChar, h1, h2, h3, h4, h5, h6, h7, if_false, h8, if_true, h9, if_true,
            List.cons_append, List.append_assoc]
          rw [parseStrAux, if_neg (by decide : ¬('\\' : Char) = '"'), if_pos rfl, classifyEsc_u,
            classifyU_hex c.toNat _ h9 hns1 hns2]
          simp [ih g _ hg, Char.ofNat_toNat]
        · have hlt : c.toNat < 0x110000 := by omega
          have hh : 0xd800 ≤ 0xd800 + (c.toNat - 0x10000) / 0x400 ∧
              0xd800 + (c.toNat - 0x10000) / 0x400 < 0xdc00 := by omega
          have hl : 0xdc00 ≤ 0xdc00 + (c.toNat - 0x10000) % 0x400 ∧
              0xdc00 + (c.toNat - 0x10000) % 0x400 < 0xe000 := by omega
          have hhi16 : 0xd800 + (c.toNat - 0x10000) / 0x400 < 0x10000 := by omega
          have hlo16 : 0xdc00 + (c.toNat - 0x10000) % 0x400 < 0x10000 := by omega
          have hcomb : 0x10000 + (0xd800 + (c.toNat - 0x10000) / 0x400 - 0xd800) * 0x400 +
              (0xdc00 + (c.toNat - 0x10000) % 0x400 - 0xdc00) = c.toNat := by omega
          simp only [escapeChar, h1, h2, h3, h4, h5, h6, h7, if_false, h8, if_true, h9, if_false,
            List.cons_append, List.append_assoc]
          rw [parseStrAux, if_neg (by decide : ¬('\\' : Char) = '"'), if_pos rfl, classifyEsc_u,
            classifyU_pair _ _ _ hhi16 hlo16 hh hl]
          simp [ih g _ hg]
          have hcomb2 : 65536 + (c.toNat - 65536) / 1024 * 1024 + (c.toNat - 65536) % 1024
              = c.toNat := by omega
          rw [hcomb2, Char.ofNat_toNat]
      · have h20 : ¬c.toNat < 0x20 := by push_neg at h8; omega
        simp only [escapeChar, h1, h2, h3, h4, h5, h6, h7, if_false, h8, if_false,
          List.cons_append, List.nil_append]
        rw [parseStrAux]
        simp only [h1, if_false, h2, if_false, h20, if_false, ih g _ hg, Option.map_some']

/-! ## Lemmas: whitespace, keywords, dict insertion -/

/-- A whitespace run is skipped. -/
theorem skipWs_append (ws l : List Char) (h : ∀ c ∈ ws, isWsChar c = true) :
    skipWs (ws ++ l) = skipWs l := dropWhile_append_all ws l h

/-- A non-whitespace head stops the skip. -/
theorem skipWs_cons_neg (c : Char) (l : List Char) (h : isWsChar c = false) :
    skipWs (c :: l) = c :: l := by
  simp [skipWs, List.dropWhile_cons, h]

/-- The four JSON whitespace characters. -/
theorem isWsChar_cases (c : Char) (h : isWsChar c = true) :
    c = ' ' ∨ c = '\t' ∨ c = '\n' ∨ c = '\r' := by
  have h2 := h
  simp [isWsChar] at h2
  tauto

/-- Indentation blocks are whitespace. -/
theorem nlIndent_ws (lvl : Nat) : ∀ c ∈ nlIndent lvl, isWsChar c = true := by
  intro c hc
  rcases List.mem_cons.mp hc with h | h
  · subst h; decide
  · rw [List.eq_of_mem_replicate h]; decide

/-- Whitespace never extends a numeral. -/
theorem ws_numOk (c : Char) (h : isWsChar c = true) :
    c.isDigit = false ∧ c ≠ '.' ∧ c ≠ 'e' ∧ c ≠ 'E' := by
  rcases isWsChar_cases c h with rfl | rfl | rfl | rfl <;> exact ⟨by decide, by decide, by decide, by decide⟩

/-- A digit character collides with none of the scanner dispatch heads. -/
theorem digit_facts (c : Char) (h : c.isDigit = true) :
    isWsChar c = false ∧ c ≠ 'n' ∧ c ≠ 't' ∧ c ≠ 'f' ∧ c ≠ '"' ∧ c ≠ '[' ∧ c ≠ '\x7b' := by
  refine ⟨?_, ?_, ?_, ?_, ?_, ?_, ?_⟩
  · by_cases hw : isWsChar c = true
    · rcases isWsChar_cases c hw with rfl | rfl | rfl | rfl <;> simp_all
    · simpa using hw
  all_goals intro he; rw [he] at h; exact absurd h (by decide)

/-- A pattern is its own prefix. -/
theorem startsWithChars_self (p r : List Char) : startsWithChars p (p ++ r) = true := by
  induction p with
  | nil => rfl
  | cons c cs ih => simp [startsWithChars, ih]

/-- A head mismatch refutes the prefix test. -/
theorem startsWithChars_ne (p : Char) (ps : List Char) (c : Char) (cs : List Char)
    (h : p ≠ c) : startsWithChars (p :: ps) (c :: cs) = false := by
  simp [startsWithChars, h]

/-- Inserting a fresh key appends. -/
theorem dictInsert_fresh (acc : List (String × JVal)) (k : String) (v : JVal)
    (h : ∀ p ∈ acc, p.1 ≠ k) : dictInsert acc k v = acc ++ [(k, v)] := by
  have hany : acc.any (fun p => p.1 = k) = false := by
    simp only [List.any_eq_false]
    intro p hp
    simpa using h p hp
  simp [dictInsert, hany]

/-- Folding fresh-keyed pairs into an accumulator appends them all. -/
theorem dictFromPairs_aux : ∀ (kvs acc : List (String × JVal)),
    (((acc ++ kvs).map Prod.fst).Nodup) →
    kvs.foldl (fun a p => dictInsert a p.1 p.2) acc = acc ++ kvs := by
  intro kvs
  induction kvs with
  | nil => intro acc _; simp
  | cons p rest ih =>
      intro acc hnd
      have hnd2 := hnd
      rw [List.map_append, List.nodup_append] at hnd2
      have hdisj := hnd2.2.2
      have hfresh : ∀ q ∈ acc, q.1 ≠ p.1 := by
        intro q hq he
        exact hdisj (List.mem_map_of_mem Prod.fst hq) (by rw [he]; simp)
      rw [List.foldl_cons, dictInsert_fresh acc p.1 p.2 hfresh]
      have hre : (acc ++ [(p.1, p.2)]) ++ rest = acc ++ p :: rest := by simp
      rw [show (p.1, p.2) = p from rfl] at hre ⊢
      rw [ih (acc ++ [p]) (by rw [hre]; exact hnd), hre]

/-- On lists with pairwise distinct keys, Python dict construction is the
identity. -/
theorem dictFromPairs_nodup (kvs : List (String × JVal))
    (h : (kvs.map Prod.fst).Nodup) : dictFromPairs kvs = kvs := by
  have := dictFromPairs_aux kvs [] (by simpa using h)
  simpa [dictFromPairs] using this

/-- Every escape produces at least one character. -/
theorem escapeChar_length_pos (c : Char) : 1 ≤ (escapeChar c).length := by
  unfold escapeChar
  split_ifs <;> simp

/-- Escaping never shortens a sequence. -/
theorem escapeChars_length : ∀ cs : List Char, cs.length ≤ (escapeChars cs).length := by
  intro cs
  induction cs with
  | nil => simp [escapeChars]
  | cons c cs ih =>
      have := escapeChar_length_pos c
      simp only [escapeChars, List.length_append, List.length_cons]
      omega

/-- A digit character is not a closing bracket. -/
theorem digit_not_rbrack (c : Char) (h : c.isDigit = true) : c ≠ ']' := by
  intro he; rw [he] at h; exact absurd h (by decide)

/-- The serialized integer starts with a minus sign or a digit; either way
its head collides with none of the scanner dispatch heads. -/
theorem intToChars_head (i : Int) :
    ∃ c0 r0, intToChars i = c0 :: r0 ∧ isWsChar c0 = false ∧ c0 ≠ 'n' ∧ c0 ≠ 't' ∧ c0 ≠ 'f' ∧
      c0 ≠ '"' ∧ c0 ≠ '[' ∧ c0 ≠ '\x7b' ∧ c0 ≠ ']' := by
  by_cases hneg : i < 0
  · exact ⟨'-', natToChars i.natAbs, by simp [intToChars, hneg], by decide, by decide, by decide,
      by decide, by decide, by decide, by decide, by decide⟩
  · obtain ⟨c0, r0, heq⟩ : ∃ c0 r0, natToChars i.toNat = c0 :: r0 := by
      cases hh : natToChars i.toNat with
      | nil => exact absurd hh (natToChars_ne_nil _)
      | cons c cs => exact ⟨c, cs, rfl⟩
    have hd : c0.isDigit = true := natToChars_digits i.toNat c0 (by rw [heq]; simp)
    obtain ⟨hw, hn, ht, hf, hq, hb, hbr⟩ := digit_facts c0 hd
    exact ⟨c0, r0, by simp [intToChars, hneg, heq], hw, hn, ht, hf, hq, hb, hbr,
      digit_not_rbrack c0 hd⟩

/-- The first character of a serialized value is never whitespace and never
a closing bracket. -/
theorem dumpsInd_head (lvl : Nat) (v : JVal) :
    ∃ c0 r0, dumpsIndChars lvl v = c0 :: r0 ∧ isWsChar c0 = false ∧ c0 ≠ ']' := by
  cases v with
  | null => exact ⟨'n', _, rfl, by decide, by decide⟩
  | bool b => cases b with
      | true => exact ⟨'t', _, rfl, by decide, by decide⟩
      | false => exact ⟨'f', _, rfl, by decide, by decide⟩
  | num i =>
      obtain ⟨c0, r0, heq, hw, _, _, _, _, _, _, hbr⟩ := intToChars_head i
      exact ⟨c0, r0, by simp [dumpsIndChars, heq], hw, hbr⟩
  | str s =>
      refine ⟨'"', escapeChars s.data ++ ['"'], ?_, by decide, by decide⟩
      simp [dumpsIndChars, quoteChars]
  | arr xs => cases xs with
      | nil => exact ⟨'[', [']'], rfl, by decide, by decide⟩
      | cons x xs =>
          refine ⟨'[', nlIndent (lvl + 1) ++ (dumpsIndChars (lvl + 1) x ++
            (dumpsIndCharsItems (lvl + 1) xs ++ (nlIndent lvl ++ [']']))), ?_, by decide, by decide⟩
          simp [dumpsIndChars]
  | obj kvs => cases kvs with
      | nil => exact ⟨lbrace, [rbrace], rfl, by decide, by decide⟩
      | cons kv kvs =>
          rcases kv with ⟨k, v⟩
          refine ⟨lbrace, nlIndent (lvl + 1) ++ (quoteChars k ++ ':' :: ' ' ::
            (dumpsIndChars (lvl + 1) v ++ (dumpsIndCharsMembers (lvl + 1) kvs ++
              (nlIndent lvl ++ [rbrace])))), ?_, by decide, by decide⟩
          simp [dumpsIndChars]

/-! ## Lemmas: value round trip -/

theorem jfuel_pos : ∀ v : JVal, 1 ≤ jfuel v := by
  intro v
  cases v <;> simp [jfuel]

theorem parse_rt_all : ∀ f : Nat,
    (∀ (v : JVal) (lvl : Nat) (ws rest : List Char),
      (∀ c ∈ ws, isWsChar c = true) → numOk rest → jwf v = true → jfuel v ≤ f →
      parseVal f (ws ++ (dumpsIndChars lvl v ++ rest)) = some (v, rest)) ∧
    (∀ (x : JVal) (xs : List JVal) (lvl : Nat) (ws ws2 rest : List Char),
      (∀ c ∈ ws, isWsChar c = true) → (∀ c ∈ ws2, isWsChar c = true) →
      jwfList (x :: xs) = true → jfuelList (x :: xs) ≤ f →
      parseElems f (ws ++ (dumpsIndChars lvl x ++ (dumpsIndCharsItems lvl xs ++ (ws2 ++ ']' :: rest))))
        = some (x :: xs, rest)) ∧
    (∀ (k : String) (v : JVal) (kvs : List (String × JVal)) (lvl : Nat) (ws ws2 rest : List Char),
      (∀ c ∈ ws, isWsChar c = true) → (∀ c ∈ ws2, isWsChar c = true) →
      jwfMembers ((k, v) :: kvs) = true → jfuelMembers ((k, v) :: kvs) ≤ f →
      parseMembers f (ws ++ (quoteChars k ++ ':' :: ' ' :: (dumpsIndChars lvl v ++
          (dumpsIndCharsMembers lvl kvs ++ (ws2 ++ '\x7d' :: rest)))))
        = some ((k, v) :: kvs, rest)) := by
  intro f
  induction f with
  | zero =>
      refine ⟨?_, ?_, ?_⟩
      · intro v _ _ _ _ _ _ hf
        have := jfuel_pos v
        omega
      · intro x xs _ _ _ _ _ _ _ hf
        simp [jfuelList] at hf
      · intro k v kvs _ _ _ _ _ _ _ hf
        simp [jfuelMembers] at hf
  | succ g ih =>
      obtain ⟨ihV, ihE, ihM⟩ := ih
      refine ⟨?_, ?_, ?_⟩
      · -- parseVal
        intro v lvl ws rest hws hnum hwf hf
        cases v with
        | null =>
            have hsk : skipWs (ws ++ (dumpsIndChars lvl .null ++ rest))
                = 'n' :: ('u' :: 'l' :: 'l' :: rest) := by
              rw [skipWs_append ws _ hws]
              exact skipWs_cons_neg _ _ (by decide)
            rw [parseVal]
            simp only [hsk]
            simp [startsWithChars, nullKw]
        | bool b =>
            cases b with
            | true =>
                have hsk : skipWs (ws ++ (dumpsIndChars lvl (.bool true) ++ rest))
                    = 't' :: ('r' :: 'u' :: 'e' :: rest) := by
                  rw [skipWs_append ws _ hws]
                  exact skipWs_cons_neg _ _ (by decide)
                rw [parseVal]
                simp only [hsk]
                simp [startsWithChars, nullKw, trueKw]
            | false =>
                have hsk : skipWs (ws ++ (dumpsIndChars lvl (.bool false) ++ rest))
                    = 'f' :: ('a' :: 'l' :: 's' :: 'e' :: rest) := by
                  rw [skipWs_append ws _ hws]
                  exact skipWs_cons_neg _ _ (by decide)
                rw [parseVal]
                simp only [hsk]
                simp [startsWithChars, nullKw, trueKw, falseKw]
        | num i =>
            obtain ⟨c0, r0, heq, hw, hn, ht, hfc, hq, hbk, hbc, _⟩ := intToChars_head i
            have hshape : dumpsIndChars lvl (.num i) ++ rest = c0 :: (r0 ++ rest) := by
              simp [dumpsIndChars, heq]
            have hsk : skipWs (ws ++ (dumpsIndChars lvl (.num i) ++ rest))
                = c0 :: (r0 ++ rest) := by
              rw [skipWs_append ws _ hws, hshape]
              exact skipWs_cons_neg _ _ hw
            have hnt : parseNumTok (c0 :: (r0 ++ rest)) = some (i, rest) := by
              rw [← hshape]
              have : dumpsIndChars lvl (.num i) ++ rest = intToChars i ++ rest := by
                simp [dumpsIndChars]
              rw [this]
              exact parseNumTok_rt i rest (fun c hc => ((hnum c hc).1))
            have hff : floatFollows rest = false := by
              cases rest with
              | nil => rfl
              | cons c rs =>
                  obtain ⟨_, h2, h3, h4⟩ := hnum c rfl
                  simp [floatFollows, h2, h3, h4]
            have hkw1 : startsWithChars nullKw (c0 :: (r0 ++ rest)) = false :=
              startsWithChars_ne _ _ _ _ (fun h => hn h.symm)
            have hkw2 : startsWithChars trueKw (c0 :: (r0 ++ rest)) = false :=
              startsWithChars_ne _ _ _ _ (fun h => ht h.symm)
            have hkw3 : startsWithChars falseKw (c0 :: (r0 ++ rest)) = false :=
              startsWithChars_ne _ _ _ _ (fun h => hfc h.symm)
            rw [parseVal]
            simp only [hsk, hkw1, hkw2, hkw3, Bool.false_eq_true, if_false,
              hq, hbk, hbc, hnt, hff]
        | str s =>
            have hshape : dumpsIndChars lvl (.str s) ++ rest
                = '"' :: (escapeChars s.data ++ '"' :: rest) := by
              simp [dumpsIndChars, quoteChars]
            have hsk : skipWs (ws ++ (dumpsIndChars lvl (.str s) ++ rest))
                = '"' :: (escapeChars s.data ++ '"' :: rest) := by
              rw [skipWs_append ws _ hws, hshape]
              exact skipWs_cons_neg _ _ (by decide)
            have hps : parseStrAux ((escapeChars s.data ++ '"' :: rest).length + 1)
                (escapeChars s.data ++ '"' :: rest) = some (s.data, rest) := by
              apply parseStrAux_escape
              have := escapeChars_length s.data
              simp only [List.length_append, List.length_cons]
              omega
            have hkw1 : startsWithChars nullKw ('"' :: (escapeChars s.data ++ '"' :: rest)) = false := rfl
            have hkw2 : startsWithChars trueKw ('"' :: (escapeChars s.data ++ '"' :: rest)) = false := rfl
            have hkw3 : startsWithChars falseKw ('"' :: (escapeChars s.data ++ '"' :: rest)) = false := rfl
            rw [parseVal]
            simp only [hsk, hkw1, hkw2, hkw3, Bool.false_eq_true, if_false, if_pos rfl, hps,
              Option.map_some']
            simp
        | arr xs =>
            cases xs with
            | nil =>
                have hsk : skipWs (ws ++ (dumpsIndChars lvl (.arr []) ++ rest))
                    = '[' :: (']' :: rest) := by
                  rw [skipWs_append ws _ hws]
                  exact skipWs_cons_neg _ _ (by decide)
                have hsk2 : skipWs (']' :: rest) = ']' :: rest := skipWs_cons_neg _ _ (by decide)
                rw [parseVal]
                simp only [hsk]
                simp [hsk2, startsWithChars, nullKw, trueKw, falseKw]
            | cons x xs =>
                obtain ⟨c0, r0, heqx, hwx, hbrx⟩ := dumpsInd_head (lvl + 1) x
                have hwf2 : jwfList (x :: xs) = true := by simpa [jwf] using hwf
                have hf2 : jfuelList (x :: xs) ≤ g := by
                  simp only [jfuel] at hf
                  omega
                have hshape : dumpsIndChars lvl (.arr (x :: xs)) ++ rest
                    = '[' :: (nlIndent (lvl + 1) ++ (dumpsIndChars (lvl + 1) x ++
                      (dumpsIndCharsItems (lvl + 1) xs ++ (nlIndent lvl ++ ']' :: rest)))) := by
                  simp [dumpsIndChars]
                have hsk : skipWs (ws ++ (dumpsIndChars lvl (.arr (x :: xs)) ++ rest))
                    = '[' :: (nlIndent (lvl + 1) ++ (dumpsIndChars (lvl + 1) x ++
                      (dumpsIndCharsItems (lvl + 1) xs ++ (nlIndent lvl ++ ']' :: rest)))) := by
                  rw [skipWs_append ws _ hws, hshape]
                  exact skipWs_cons_neg _ _ (by decide)
                have hskA : skipWs (nlIndent (lvl + 1) ++ (dumpsIndChars (lvl + 1) x ++
                      (dumpsIndCharsItems (lvl + 1) xs ++ (nlIndent lvl ++ ']' :: rest))))
                    = c0 :: (r0 ++ (dumpsIndCharsItems (lvl + 1) xs ++ (nlIndent lvl ++ ']' :: rest))) := by
                  rw [skipWs_append _ _ (nlIndent_ws (lvl + 1)), heqx]
                  simp only [List.cons_append, List.append_assoc]
                  exact skipWs_cons_neg _ _ hwx
                have hE := ihE x xs (lvl + 1) (nlIndent (lvl + 1)) (nlIndent lvl) rest
                  (nlIndent_ws _) (nlIndent_ws _) hwf2 hf2
                rw [parseVal]
                simp only [hsk]
                have hkw1 : startsWithChars nullKw ('[' :: (nlIndent (lvl + 1) ++
                    (dumpsIndChars (lvl + 1) x ++ (dumpsIndCharsItems (lvl + 1) xs ++
                      (nlIndent lvl ++ ']' :: rest))))) = false := rfl
                have hkw2 : startsWithChars trueKw ('[' :: (nlIndent (lvl + 1) ++
                    (dumpsIndChars (lvl + 1) x ++ (dumpsIndCharsItems (lvl + 1) xs ++
                      (nlIndent lvl ++ ']' :: rest))))) = false := rfl
                have hkw3 : startsWithChars falseKw ('[' :: (nlIndent (lvl + 1) ++
                    (dumpsIndChars (lvl + 1) x ++ (dumpsIndCharsItems (lvl + 1) xs ++
                      (nlIndent lvl ++ ']' :: rest))))) = false := rfl
                simp only [hkw1, hkw2, hkw3, Bool.false_eq_true, if_false,
                  if_neg (by decide : ¬('[' : Char) = '"'), if_pos rfl, hskA, hbrx, if_false, hE,
                  Option.map_some']
                simp
        | obj kvs =>
            cases kvs with
            | nil =>
                have hsk : skipWs (ws ++ (dumpsIndChars lvl (.obj []) ++ rest))
                    = '\x7b' :: ('\x7d' :: rest) := by
                  rw [skipWs_append ws _ hws]
                  exact skipWs_cons_neg _ _ (by decide)
                have hsk2 : skipWs ('\x7d' :: rest) = '\x7d' :: rest := skipWs_cons_neg _ _ (by decide)
                rw [parseVal]
                simp only [hsk]
                simp [hsk2, startsWithChars, nullKw, trueKw, falseKw]
            | cons kv kvs =>
                rcases kv with ⟨k, v⟩
                have hwfm : jwfMembers ((k, v) :: kvs) = true := by
                  simp only [jwf, Bool.and_eq_true] at hwf
                  exact hwf.2
                have hnd : (((k, v) :: kvs).map Prod.fst).Nodup := by
                  simp only [jwf, Bool.and_eq_true] at hwf
                  simpa using hwf.1
                have hf2 : jfuelMembers ((k, v) :: kvs) ≤ g := by
                  simp only [jfuel] at hf
                  omega
                have hshape : dumpsIndChars lvl (.obj ((k, v) :: kvs)) ++ rest
                    = '\x7b' :: (nlIndent (lvl + 1) ++ (quoteChars k ++ ':' :: ' ' ::
                      (dumpsIndChars (lvl + 1) v ++ (dumpsIndCharsMembers (lvl + 1) kvs ++
                        (nlIndent lvl ++ '\x7d' :: rest))))) := by
                  simp [dumpsIndChars, lbrace, rbrace]
                have hsk : skipWs (ws ++ (dumpsIndChars lvl (.obj ((k, v) :: kvs)) ++ rest))
                    = '\x7b' :: (nlIndent (lvl + 1) ++ (quoteChars k ++ ':' :: ' ' ::
                      (dumpsIndChars (lvl + 1) v ++ (dumpsIndCharsMembers (lvl + 1) kvs ++
                        (nlIndent lvl ++ '\x7d' :: rest))))) := by
                  rw [skipWs_append ws _ hws, hshape]
                  exact skipWs_cons_neg _ _ (by decide)
                have hskA : skipWs (nlIndent (lvl + 1) ++ (quoteChars k ++ ':' :: ' ' ::
                      (dumpsIndChars (lvl + 1) v ++ (dumpsIndCharsMembers (lvl + 1) kvs ++
                        (nlIndent lvl ++ '\x7d' :: rest)))))
                    = '"' :: (escapeChars k.data ++ '"' :: (':' :: ' ' ::
                      (dumpsIndChars (lvl + 1) v ++ (dumpsIndCharsMembers (lvl + 1) kvs ++
                        (nlIndent lvl ++ '\x7d' :: rest))))) := by
                  rw [skipWs_append _ _ (nlIndent_ws (lvl + 1))]
                  have : quoteChars k ++ ':' :: ' ' ::
                      (dumpsIndChars (lvl + 1) v ++ (dumpsIndCharsMembers (lvl + 1) kvs ++
                        (nlIndent lvl ++ '\x7d' :: rest)))
                      = '"' :: (escapeChars k.data ++ '"' :: (':' :: ' ' ::
                        (dumpsIndChars (lvl + 1) v ++ (dumpsIndCharsMembers (lvl + 1) kvs ++
                          (nlIndent lvl ++ '\x7d' :: rest))))) := by
                    simp [quoteChars]
                  rw [this]
                  exact skipWs_cons_neg _ _ (by decide)
                have hM := ihM k v kvs (lvl + 1) (nlIndent (lvl + 1)) (nlIndent lvl) rest
                  (nlIndent_ws _) (nlIndent_ws _) hwfm hf2
                rw [parseVal]
                simp only [hsk]
                have hkw1 : ∀ X : List Char, startsWithChars nullKw ('\x7b' :: X) = false :=
                  fun X => rfl
                have hkw2 : ∀ X : List Char, startsWithChars trueKw ('\x7b' :: X) = false :=
                  fun X => rfl
                have hkw3 : ∀ X : List Char, startsWithChars falseKw ('\x7b' :: X) = false :=
                  fun X => rfl
                simp only [hkw1, hkw2, hkw3, Bool.false_eq_true, if_false,
                  if_neg (by decide : ¬('\x7b' : Char) = '"'),
                  if_neg (by decide : ¬('\x7b' : Char) = '['), if_pos rfl, hskA,
                  if_neg (by decide : ¬('"' : Char) = '\x7d'), hM, Option.map_some']
                simp only [if_true, reduceIte]
                rw [dictFromPairs_nodup _ hnd]
      · -- parseElems
        intro x xs lvl ws ws2 rest hws hws2 hwf hf
        have hwfx : jwf x = true := by
          simp only [jwfList, Bool.and_eq_true] at hwf
          exact hwf.1
        have hwfxs : jwfList xs = true := by
          simp only [jwfList, Bool.and_eq_true] at hwf
          exact hwf.2
        have hfx : jfuel x ≤ g := by
          simp only [jfuelList] at hf
          omega
        have hfxs : jfuelList xs ≤ g := by
          simp only [jfuelList] at hf
          omega
        cases xs with
        | nil =>
            have hnum1 : numOk (dumpsIndCharsItems lvl [] ++ (ws2 ++ ']' :: rest)) := by
              simp only [dumpsIndCharsItems, List.nil_append]
              intro c hc
              cases ws2 with
              | nil =>
                  simp at hc
                  subst hc
                  exact ⟨by decide, by decide, by decide, by decide⟩
              | cons w ws' =>
                  simp at hc
                  subst hc
                  exact ws_numOk w (hws2 w (by simp))
            have hV := ihV x lvl ws (dumpsIndCharsItems lvl [] ++ (ws2 ++ ']' :: rest))
              hws hnum1 hwfx hfx
            rw [parseElems, hV]
            simp only [dumpsIndCharsItems, List.nil_append]
            have hsk : skipWs (ws2 ++ ']' :: rest) = ']' :: rest := by
              rw [skipWs_append _ _ hws2]
              exact skipWs_cons_neg _ _ (by decide)
            simp [hsk]
        | cons y ys =>
            have hnum1 : numOk (dumpsIndCharsItems lvl (y :: ys) ++ (ws2 ++ ']' :: rest)) := by
              intro c hc
              simp [dumpsIndCharsItems] at hc
              subst hc
              exact ⟨by decide, by decide, by decide, by decide⟩
            have hV := ihV x lvl ws (dumpsIndCharsItems lvl (y :: ys) ++ (ws2 ++ ']' :: rest))
              hws hnum1 hwfx hfx
            rw [parseElems, hV]
            have hE := ihE y ys lvl (nlIndent lvl) ws2 rest (nlIndent_ws _) hws2 hwfxs hfxs
            have hshape : dumpsIndCharsItems lvl (y :: ys) ++ (ws2 ++ ']' :: rest)
                = ',' :: (nlIndent lvl ++ (dumpsIndChars lvl y ++ (dumpsIndCharsItems lvl ys ++
                  (ws2 ++ ']' :: rest)))) := by
              simp [dumpsIndCharsItems]
            rw [hshape]
            have hsk : skipWs (',' :: (nlIndent lvl ++ (dumpsIndChars lvl y ++
                (dumpsIndCharsItems lvl ys ++ (ws2 ++ ']' :: rest)))))
                = ',' :: (nlIndent lvl ++ (dumpsIndChars lvl y ++ (dumpsIndCharsItems lvl ys ++
                  (ws2 ++ ']' :: rest)))) := skipWs_cons_neg _ _ (by decide)
            simp only [hsk, if_pos rfl, hE, Option.map_some']
            simp
      · -- parseMembers
        intro k v kvs lvl ws ws2 rest hws hws2 hwf hf
        have hwfv : jwf v = true := by
          simp only [jwfMembers, Bool.and_eq_true] at hwf
          exact hwf.1
        have hwfkvs : jwfMembers kvs = true := by
          simp only [jwfMembers, Bool.and_eq_true] at hwf
          exact hwf.2
        have hfv : jfuel v ≤ g := by
          simp only [jfuelMembers] at hf
          omega
        have hfkvs : jfuelMembers kvs ≤ g := by
          simp only [jfuelMembers] at hf
          omega
        have hshape : ws ++ (quoteChars k ++ ':' :: ' ' :: (dumpsIndChars lvl v ++
            (dumpsIndCharsMembers lvl kvs ++ (ws2 ++ '\x7d' :: rest))))
            = ws ++ ('"' :: (escapeChars k.data ++ '"' :: (':' :: ' ' :: (dumpsIndChars lvl v ++
              (dumpsIndCharsMembers lvl kvs ++ (ws2 ++ '\x7d' :: rest)))))) := by
          simp [quoteChars]
        have hsk : skipWs (ws ++ ('"' :: (escapeChars k.data ++ '"' :: (':' :: ' ' ::
            (dumpsIndChars lvl v ++ (dumpsIndCharsMembers lvl kvs ++ (ws2 ++ '\x7d' :: rest)))))))
            = '"' :: (escapeChars k.data ++ '"' :: (':' :: ' ' :: (dumpsIndChars lvl v ++
              (dumpsIndCharsMembers lvl kvs ++ (ws2 ++ '\x7d' :: rest))))) := by
          rw [skipWs_append ws _ hws]
          exact skipWs_cons_neg _ _ (by decide)
        have hps : parseStrAux ((escapeChars k.data ++ '"' :: (':' :: ' ' :: (dumpsIndChars lvl v ++
            (dumpsIndCharsMembers lvl kvs ++ (ws2 ++ '\x7d' :: rest))))).length + 1)
            (escapeChars k.data ++ '"' :: (':' :: ' ' :: (dumpsIndChars lvl v ++
              (dumpsIndCharsMembers lvl kvs ++ (ws2 ++ '\x7d' :: rest)))))
            = some (k.data, ':' :: ' ' :: (dumpsIndChars lvl v ++
              (dumpsIndCharsMembers lvl kvs ++ (ws2 ++ '\x7d' :: rest)))) := by
          apply parseStrAux_escape
          have := escapeChars_length k.data
          simp only [List.length_append, List.length_cons]
          omega
        rw [hshape, parseMembers]
        simp only [hsk, hps]
        have hsk2 : skipWs (':' :: ' ' :: (dumpsIndChars lvl v ++
            (dumpsIndCharsMembers lvl kvs ++ (ws2 ++ '\x7d' :: rest))))
            = ':' :: ' ' :: (dumpsIndChars lvl v ++ (dumpsIndCharsMembers lvl kvs ++
              (ws2 ++ '\x7d' :: rest))) := skipWs_cons_neg _ _ (by decide)
        simp only [hsk2, if_pos rfl]
        cases kvs with
        | nil =>
            have hnum1 : numOk (dumpsIndCharsMembers lvl [] ++ (ws2 ++ '\x7d' :: rest)) := by
              simp only [dumpsIndCharsMembers, List.nil_append]
              intro c hc
              cases ws2 with
              | nil =>
                  simp at hc
                  subst hc
                  exact ⟨by decide, by decide, by decide, by decide⟩
              | cons w ws' =>
                  simp at hc
                  subst hc
                  exact ws_numOk w (hws2 w (by simp))
            have hV := ihV v lvl [' '] (dumpsIndCharsMembers lvl [] ++ (ws2 ++ '\x7d' :: rest))
              (by intro c hc; simp at hc; subst hc; decide) hnum1 hwfv hfv
            simp only [List.cons_append, List.nil_append] at hV
            rw [hV]
            simp only [dumpsIndCharsMembers, List.nil_append]
            have hsk3 : skipWs (ws2 ++ '\x7d' :: rest) = '\x7d' :: rest := by
              rw [skipWs_append _ _ hws2]
              exact skipWs_cons_neg _ _ (by decide)
            simp [hsk3]
        | cons kv2 kvs2 =>
            rcases kv2 with ⟨k2, v2⟩
            have hnum1 : numOk (dumpsIndCharsMembers lvl ((k2, v2) :: kvs2) ++
                (ws2 ++ '\x7d' :: rest)) := by
              intro c hc
              simp [dumpsIndCharsMembers] at hc
              subst hc
              exact ⟨by decide, by decide, by decide, by decide⟩
            have hV := ihV v lvl [' '] (dumpsIndCharsMembers lvl ((k2, v2) :: kvs2) ++
              (ws2 ++ '\x7d' :: rest))
              (by intro c hc; simp at hc; subst hc; decide) hnum1 hwfv hfv
            simp only [List.cons_append, List.nil_append] at hV
            rw [hV]
            have hM := ihM k2 v2 kvs2 lvl (nlIndent lvl) ws2 rest (nlIndent_ws _) hws2 hwfkvs hfkvs
            have hshape2 : dumpsIndCharsMembers lvl ((k2, v2) :: kvs2) ++ (ws2 ++ '\x7d' :: rest)
                = ',' :: (nlIndent lvl ++ (quoteChars k2 ++ ':' :: ' ' :: (dumpsIndChars lvl v2 ++
                  (dumpsIndCharsMembers lvl kvs2 ++ (ws2 ++ '\x7d' :: rest))))) := by
              simp [dumpsIndCharsMembers]
            rw [hshape2]
            have hsk3 : skipWs (',' :: (nlIndent lvl ++ (quoteChars k2 ++ ':' :: ' ' ::
                (dumpsIndChars lvl v2 ++ (dumpsIndCharsMembers lvl kvs2 ++
                  (ws2 ++ '\x7d' :: rest))))))
                = ',' :: (nlIndent lvl ++ (quoteChars k2 ++ ':' :: ' ' :: (dumpsIndChars lvl v2 ++
                  (dumpsIndCharsMembers lvl kvs2 ++ (ws2 ++ '\x7d' :: rest))))) :=
              skipWs_cons_neg _ _ (by decide)
            simp only [hsk3, if_pos rfl, hM, Option.map_some']
            simp

mutual

/-- Fuel bounded by printed length, values. -/
theorem jfuelBoundV : ∀ (lvl : Nat) (v : JVal), jfuel v ≤ (dumpsIndChars lvl v).length + 1
  | lvl, .null => by simp [jfuel, dumpsIndChars]
  | lvl, .bool true => by simp [jfuel, dumpsIndChars]
  | lvl, .bool false => by simp [jfuel, dumpsIndChars]
  | lvl, .num n => by simp [jfuel, dumpsIndChars]
  | lvl, .str s => by simp [jfuel, dumpsIndChars]
  | lvl, .arr [] => by simp [jfuel, jfuelList, dumpsIndChars]
  | lvl, .arr (x :: xs) => by
      have hb := jfuelBoundI (lvl + 1) x xs
      simp only [jfuel, dumpsIndChars, List.length_cons, List.length_append, nlIndent,
        List.length_replicate] at *
      omega
  | lvl, .obj [] => by simp [jfuel, jfuelMembers, dumpsIndChars]
  | lvl, .obj ((k, v) :: kvs) => by
      have hb := jfuelBoundM (lvl + 1) k v kvs
      have hq : 2 ≤ (quoteChars k).length := by
        simp only [quoteChars, List.length_cons, List.length_append]
        omega
      simp only [jfuel, dumpsIndChars, List.length_cons, List.length_append, nlIndent,
        List.length_replicate] at *
      omega
termination_by _ v => sizeOf v

/-- Fuel bounded by printed length, array items. -/
theorem jfuelBoundI : ∀ (lvl : Nat) (x : JVal) (xs : List JVal),
    jfuelList (x :: xs) ≤ (dumpsIndChars lvl x).length + (dumpsIndCharsItems lvl xs).length + 2
  | lvl, x, [] => by
      have ha := jfuelBoundV lvl x
      simp only [jfuelList, jfuelList, dumpsIndCharsItems, List.length_nil] at *
      omega
  | lvl, x, y :: ys => by
      have ha := jfuelBoundV lvl x
      have hb := jfuelBoundI lvl y ys
      simp only [jfuelList, dumpsIndCharsItems, List.length_cons, List.length_append, nlIndent,
        List.length_replicate] at *
      omega
termination_by _ x xs => sizeOf (x :: xs)

/-- Fuel bounded by printed length, object members. -/
theorem jfuelBoundM : ∀ (lvl : Nat) (k : String) (v : JVal) (kvs : List (String × JVal)),
    jfuelMembers ((k, v) :: kvs)
      ≤ (dumpsIndChars lvl v).length + (dumpsIndCharsMembers lvl kvs).length + 2
  | lvl, k, v, [] => by
      have ha := jfuelBoundV lvl v
      simp only [jfuelMembers, dumpsIndCharsMembers, List.length_nil] at *
      omega
  | lvl, k, v, (k2, v2) :: kvs => by
      have ha := jfuelBoundV lvl v
      have hb := jfuelBoundM lvl k2 v2 kvs
      have hq : 2 ≤ (quoteChars k2).length := by
        simp only [quoteChars, List.length_cons, List.length_append]
        omega
      simp only [jfuelMembers, dumpsIndCharsMembers, List.length_cons, List.length_append,
        nlIndent, List.length_replicate] at *
      omega
termination_by _ k v kvs => sizeOf ((k, v) :: kvs)

end

/-- The verified round trip: `json.loads` recovers every dict-canonical
value from its `indent=2` serialization. -/
theorem jsonLoads_dumpsIndent (v : JVal) (hwf : jwf v = true) :
    jsonLoads (jsonDumpsIndent v) = some v := by
  have hdata : (jsonDumpsIndent v).data = dumpsIndChars 0 v := rfl
  have hb := jfuelBoundV 0 v
  have hV := (parse_rt_all ((dumpsIndChars 0 v).length + 1)).1 v 0 [] []
    (by intro c hc; simp at hc) (by intro c hc; simp at hc) hwf hb
  simp only [List.nil_append, List.append_nil] at hV
  rw [jsonLoads, hdata, hV]
  rfl

/-! ## Lemmas: orchestrator -/

/-- Preparation step on a history headed by a well-formed system message:
the shared head dict is updated in place, so the tool block lands in the
stored history as well as in the rendered one. -/
theorem callLlmPrep_system (tp sys : String) (rest : List JVal) :
    callLlmPrep tp (mkSystemMessage sys :: rest)
      = some (mkSystemMessage (sys ++ ("\n\n" ++ tp)) :: rest,
              mkSystemMessage (sys ++ ("\n\n" ++ tp)) :: rest) := by
  simp [callLlmPrep, mkSystemMessage, objLookup, isStrEq, contentAppend, dictInsert]

/-- Sequential dispatch appends exactly the per-call tool messages. -/
theorem appendToolResults_eq (execTC : ToolCallRec → JVal) :
    ∀ (tcs : List ToolCallRec) (msgs : List JVal),
      appendToolResults execTC msgs tcs = msgs ++ mkToolResultsFor execTC tcs := by
  intro tcs
  induction tcs with
  | nil => intro msgs; simp [appendToolResults, mkToolResultsFor]
  | cons tc rest ih =>
      intro msgs
      simp [appendToolResults, mkToolResultsFor, ih]

/-- The id of the `i`-th successfully parsed call counts the successes
before it. -/
theorem assignIds_get : ∀ (pre : List (String × String)) (n i : Nat)
    (h : i < (assignIds n pre).length),
    ((assignIds n pre).get ⟨i, h⟩).id = "call_" ++ String.mk (natToChars (n + i)) := by
  intro pre
  induction pre with
  | nil => intro n i h; simp [assignIds] at h
  | cons p rest ih =>
      intro n i h
      cases i with
      | zero => simp [assignIds]
      | succ j =>
          have h2 : j < (assignIds (n + 1) rest).length := by
            simpa [assignIds] using h
          have := ih (n + 1) j h2
          simpa [assignIds, Nat.add_assoc, Nat.add_comm 1 j] using this

/-- Characterization of the payload scan: on success it returns exactly
the characters before the stop position, the stop position satisfies the
break condition of the loop, and no earlier position does. -/
theorem scanArgs_spec : ∀ (cs : List Char) (st : ScanSt) (args : List Char),
    scanArgs st cs = some args →
    args = cs.take args.length ∧
    (∃ c, cs.get? args.length = some c ∧
      (scanStep ((cs.take args.length).foldl (fun a b => (scanStep a b).1) st) c).2 = true) ∧
    (∀ j < args.length, ∀ c, cs.get? j = some c →
      (scanStep ((cs.take j).foldl (fun a b => (scanStep a b).1) st) c).2 = false) := by
  intro cs
  induction cs with
  | nil => intro st args h; simp [scanArgs] at h
  | cons c rest ih =>
      intro st args h
      rw [scanArgs] at h
      by_cases hstop : (scanStep st c).2 = true
      · rw [if_pos hstop] at h
        have : args = [] := by
          cases h; rfl
        subst this
        refine ⟨rfl, ⟨c, rfl, hstop⟩, ?_⟩
        intro j hj
        simp at hj
      · rw [if_neg hstop] at h
        cases ht : scanArgs (scanStep st c).1 rest with
        | none => rw [ht] at h; simp at h
        | some t =>
            rw [ht] at h
            simp only [Option.map_some'] at h
            have hargs : args = c :: t := by
              cases h; rfl
            subst hargs
            obtain ⟨h1, ⟨d, hd, hds⟩, h3⟩ := ih (scanStep st c).1 t ht
            refine ⟨?_, ⟨d, ?_, ?_⟩, ?_⟩
            · simp only [List.length_cons, List.take_succ_cons]
              rw [← h1]
            · simpa using hd
            · simpa using hds
            · intro j hj e he
              cases j with
              | zero =>
                  simp at he
                  subst he
                  simpa using hstop
              | succ j2 =>
                  have hj2 : j2 < t.length := by simpa using hj
                  have he2 : rest.get? j2 = some e := by simpa using he
                  simpa using h3 j2 hj2 e he2

/-! ## Claim theorems -/

/-- C1: the claim states the completion step leaves the stored history
unchanged, the tool-catalog block being merged only into a copy.  The
source takes a shallow `list.copy()`, so the system dict is shared, and
`messages_with_tools[0]["content"] += ...` rewrites the stored system
message too: on the conversation `[system "You are Aetios."]` the stored
history after the preparation step carries the appended catalog block and
differs from the original history. -/
theorem c1_completion_step_mutates_history :
    callLlmPrep toolsPromptText [mkSystemMessage "You are Aetios."]
      = some ([mkSystemMessage ("You are Aetios." ++ ("\n\n" ++ toolsPromptText))],
              [mkSystemMessage ("You are Aetios." ++ ("\n\n" ++ toolsPromptText))])
    ∧ mkSystemMessage ("You are Aetios." ++ ("\n\n" ++ toolsPromptText))
        ≠ mkSystemMessage "You are Aetios." := by
  constructor
  · exact callLlmPrep_system toolsPromptText "You are Aetios." []
  · intro h
    have h2 : ("You are Aetios." ++ ("\n\n" ++ toolsPromptText)) = "You are Aetios." := by
      simpa [mkSystemMessage] using h
    have h3 := congrArg String.length h2
    simp only [String.length_append] at h3
    have h4 : ("\n\n" : String).length = 2 := rfl
    omega

/-- C2: the single line `TOOL_CALL: foo({"a": "b\"c", "n": {"x":1}})`
parses to exactly one call named `foo` whose argument string is the
serialization of the JSON object `{"a": "b\"c", "n": {"x": 1}}`; and in
general a successful payload scan returns exactly the characters before
the first close paren reached outside a JSON string at brace depth 0 (a
pending backslash consuming the following character), no earlier position
satisfying that break condition. -/
theorem c2_extractor_nested_json :
    parseToolCalls "TOOL_CALL: foo(\x7b\"a\": \"b\\\"c\", \"n\": \x7b\"x\":1\x7d\x7d)"
      = some [⟨"call_0", "foo", jsonDumps (.obj [("a", .str "b\"c"), ("n", .obj [("x", .num 1)])])⟩]
    ∧ (∀ (cs args : List Char), scanArgs scanInit cs = some args →
        args = cs.take args.length ∧ scanStopsAt cs args.length ∧
        ∀ j < args.length, ¬ scanStopsAt cs j) := by
  constructor
  · decide
  · intro cs args h
    obtain ⟨h1, ⟨c, hc, hs⟩, h3⟩ := scanArgs_spec cs scanInit args h
    refine ⟨h1, ⟨c, hc, hs⟩, ?_⟩
    intro j hj hcon
    obtain ⟨d, hd, hds⟩ := hcon
    have hfalse := h3 j hj d hd
    simp only [scanStateAt] at hds
    simp [hfalse] at hds

/-- C2 witness: a concrete payload scan (object braces then the close
paren) instantiating the universal characterization. -/
theorem c2_extractor_nested_json_witness :
    "\x7b\x7d".data = ("\x7b\x7d)x".data).take ("\x7b\x7d".data).length ∧
    scanStopsAt "\x7b\x7d)x".data ("\x7b\x7d".data).length ∧
    ∀ j < ("\x7b\x7d".data).length, ¬ scanStopsAt "\x7b\x7d)x".data j :=
  c2_extractor_nested_json.2 "\x7b\x7d)x".data "\x7b\x7d".data (by decide)

/-- C3: whenever exactly one line of the input parses successfully, the
extractor returns exactly that call (as `call_0`) — in particular in the
presence of a candidate line with an unmatched parenthesis.  The extractor
is a total function (the per-line failures of the source are its `none`
results), so no input raises. -/
theorem c3_malformed_line_isolated :
    ∀ (text : String) (pre : String × String),
      (splitLines text.data).filterMap toolLinePre = [pre] →
      (∃ l ∈ splitLines text.data, unmatchedParenLine l = true) →
      parseToolCalls text = some [⟨"call_0", pre.1, pre.2⟩] := by
  intro text pre h1 _
  have hid : "call_" ++ String.mk (natToChars 0) = "call_0" := rfl
  simp [parseToolCalls, h1, assignIds, hid]

/-- C3 witness: one well-formed line, one candidate line with an unmatched
parenthesis; only the well-formed call survives. -/
theorem c3_malformed_line_isolated_witness :
    parseToolCalls "TOOL_CALL: good(\x7b\x7d)\nTOOL_CALL: bad(\x7b\"q\": 1"
      = some [⟨"call_0", "good", "\x7b\x7d"⟩] :=
  c3_malformed_line_isolated "TOOL_CALL: good(\x7b\x7d)\nTOOL_CALL: bad(\x7b\"q\": 1"
    ("good", "\x7b\x7d") (by decide) (by decide)

/-- C7: the calls returned by the extractor are numbered `call_0`,
`call_1`, … by their position among the successes across the whole input;
a line that fails to parse contributes nothing to the numbering. -/
theorem c7_sequential_ids :
    ∀ (text : String) (calls : List ToolCallRec),
      parseToolCalls text = some calls →
      calls = assignIds 0 ((splitLines text.data).filterMap toolLinePre) ∧
      ∀ (i : Nat) (h : i < calls.length),
        (calls.get ⟨i, h⟩).id = "call_" ++ String.mk (natToChars i) := by
  intro text calls hp
  rw [parseToolCalls] at hp
  by_cases he : (assignIds 0 ((splitLines text.data).filterMap toolLinePre)).isEmpty
  · rw [if_pos he] at hp
    exact absurd hp (by simp)
  · rw [if_neg he] at hp
    have hc : calls = assignIds 0 ((splitLines text.data).filterMap toolLinePre) := by
      cases hp; rfl
    subst hc
    refine ⟨rfl, ?_⟩
    intro i h
    simpa using assignIds_get _ 0 i h

/-- C7 witness: two calls across distinct lines receive `call_0` and
`call_1` in textual order while a malformed line in between consumes no
id. -/
theorem c7_sequential_ids_witness :
    (some [(⟨"call_0", "b", "\x7b\x7d"⟩ : ToolCallRec), ⟨"call_1", "a", "\x7b\x7d"⟩]
        = some (assignIds 0 ((splitLines ("TOOL_CALL: b()\nTOOL_CALL: oops(\nTOOL_CALL: a()" : String).data).filterMap toolLinePre))) ∧
    ((["call_0", "call_1"] : List String)
        = ["call_" ++ String.mk (natToChars 0), "call_" ++ String.mk (natToChars 1)]) := by
  have h := c7_sequential_ids "TOOL_CALL: b()\nTOOL_CALL: oops(\nTOOL_CALL: a()"
    [⟨"call_0", "b", "\x7b\x7d"⟩, ⟨"call_1", "a", "\x7b\x7d"⟩] (by decide)
  refine ⟨by rw [h.1], ?_⟩
  have h0 := h.2 0 (by decide)
  have h1 := h.2 1 (by decide)
  simp only [List.get] at h0 h1
  rw [← h0, ← h1]

/-- Budget already exhausted: the loop returns the fallback reply without
touching anything. -/
theorem runLoop_zero (e : ToolCallRec → JVal) (tp : String) (rs : List String) (ms : List JVal)
    (c : Nat) : runLoop e tp 0 rs ms c = ⟨some FALLBACK_REPLY, ms, c, rs⟩ := rfl

/-- One tool round: preparation updates the stored head, the assistant
message and one tool message per call are appended, and the loop
continues. -/
theorem runLoop_step_tools (e : ToolCallRec → JVal) (tp : String) (f : Nat) (r : String)
    (rest : List String) (ms : List JVal) (c : Nat) (stored rendered : List JVal)
    (tcs : List ToolCallRec)
    (hprep : callLlmPrep tp ms = some (stored, rendered))
    (hparse : parseToolCalls r = some tcs) :
    runLoop e tp (f + 1) (r :: rest) ms c
      = runLoop e tp f rest (stored ++ [mkAssistantMessage none (some tcs)] ++ mkToolResultsFor e tcs)
          (c + 1) := by
  rw [runLoop, hprep]
  simp only [hparse, appendToolResults_eq]

/-- A completion without tool calls ends the loop with that text. -/
theorem runLoop_step_final (e : ToolCallRec → JVal) (tp : String) (f : Nat) (r : String)
    (rest : List String) (ms : List JVal) (c : Nat) (stored rendered : List JVal)
    (hprep : callLlmPrep tp ms = some (stored, rendered))
    (hparse : parseToolCalls r = none) :
    runLoop e tp (f + 1) (r :: rest) ms c
      = ⟨some r, stored ++ [mkAssistantMessage (some r) none], c + 1, rest⟩ := by
  rw [runLoop, hprep]
  simp only [hparse]

/-- C4: with a budget of one iteration and a gateway whose reply is a
tool-call line, `process_message` makes exactly one completion call,
executes the one tool round (assistant message with the calls, then one
tool message per call), and returns the fixed fallback string with
nothing further appended; the remaining gateway replies are never
consumed. -/
theorem c4_budget_exhausted_single_round
    (execTC : ToolCallRec → JVal) (sys userMsg r : String) (responses : List String)
    (tcs : List ToolCallRec) (st : OrchState)
    (hmax : st.maxIterations = 1)
    (hmsgs : st.messages = [mkSystemMessage sys])
    (hparse : parseToolCalls r = some tcs) :
    processMessage execTC (r :: responses) st userMsg
      = (some FALLBACK_REPLY,
         { st with messages := [mkSystemMessage (sys ++ ("\n\n" ++ toolsPromptText)),
             mkUserMessage userMsg, mkAssistantMessage none (some tcs)]
               ++ mkToolResultsFor execTC tcs },
         1, responses) := by
  have hprep : callLlmPrep toolsPromptText (st.messages ++ [mkUserMessage userMsg])
      = some (mkSystemMessage (sys ++ ("\n\n" ++ toolsPromptText)) :: [mkUserMessage userMsg],
              mkSystemMessage (sys ++ ("\n\n" ++ toolsPromptText)) :: [mkUserMessage userMsg]) := by
    rw [hmsgs]
    exact callLlmPrep_system toolsPromptText sys [mkUserMessage userMsg]
  rw [processMessage, hmax]
  rw [show (1 : Nat) = 0 + 1 from rfl,
    runLoop_step_tools execTC toolsPromptText 0 r responses _ 0 _ _ tcs hprep hparse,
    runLoop_zero]
  simp

/-- C4 witness: one tool-call reply against a one-iteration budget. -/
theorem c4_budget_exhausted_single_round_witness :
    processMessage (fun _ => JVal.null) ["TOOL_CALL: lookup(\x7b\x7d)", "unused"]
      ⟨.str "llama-3", 1, 0, [mkSystemMessage "S"]⟩ "hi"
      = (some FALLBACK_REPLY,
         ⟨.str "llama-3", 1, 0,
           [mkSystemMessage ("S" ++ ("\n\n" ++ toolsPromptText)), mkUserMessage "hi",
            mkAssistantMessage none (some [⟨"call_0", "lookup", "\x7b\x7d"⟩])]
             ++ mkToolResultsFor (fun _ => JVal.null) [⟨"call_0", "lookup", "\x7b\x7d"⟩]⟩,
         1, ["unused"]) :=
  c4_budget_exhausted_single_round (fun _ => JVal.null) "S" "hi" "TOOL_CALL: lookup(\x7b\x7d)"
    ["unused"] [⟨"call_0", "lookup", "\x7b\x7d"⟩] ⟨.str "llama-3", 1, 0, [mkSystemMessage "S"]⟩
    rfl rfl (by decide)

/-- C5: dispatch of an unknown tool name never propagates an exception:
`execute_tool` raises `ValueError("Unknown tool: <name>")`, the dispatcher
catches it and returns the structured error object; an exception from a
capability body is converted the same way; and the loop then proceeds to a
further completion call instead of aborting (two completion calls are
made, the second reply becoming the final text). -/
theorem c5_unknown_tool_and_exception_isolated :
    (∀ (pe : PyErr) (impl : String → JVal → Except String JVal) (db : Option JVal)
        (tc : ToolCallRec) (kvs : List (String × JVal)),
        jsonLoads tc.arguments = some (.obj kvs) →
        TOOL_FUNCTIONS_KEYS.contains tc.name = false →
        executeToolCall pe impl db tc = .obj [("error", .str ("Unknown tool: " ++ tc.name))]) ∧
    (∀ (pe : PyErr) (impl : String → JVal → Except String JVal) (db : Option JVal)
        (tc : ToolCallRec) (args args2 : JVal) (e : String),
        jsonLoads tc.arguments = some args →
        injectDb pe db args = .ok args2 →
        TOOL_FUNCTIONS_KEYS.contains tc.name = true →
        impl tc.name args2 = .error e →
        executeToolCall pe impl db tc = .obj [("error", .str e)]) ∧
    (∀ (pe : PyErr) (impl : String → JVal → Except String JVal) (sys u r2 : String)
        (responses : List String) (st : OrchState),
        st.maxIterations = 2 →
        st.messages = [mkSystemMessage sys] →
        parseToolCalls r2 = none →
        processMessage (executeToolCall pe impl none) ("TOOL_CALL: bogus(\x7b\x7d)" :: r2 :: responses) st u
          = (some r2,
             { st with messages := [
                 mkSystemMessage ((sys ++ ("\n\n" ++ toolsPromptText)) ++ ("\n\n" ++ toolsPromptText)),
                 mkUserMessage u,
                 mkAssistantMessage none (some [⟨"call_0", "bogus", "\x7b\x7d"⟩]),
                 mkToolResultMessage "call_0" "bogus" (.obj [("error", .str "Unknown tool: bogus")]),
                 mkAssistantMessage (some r2) none] },
             2, responses)) := by
  have hpart1 : ∀ (pe : PyErr) (impl : String → JVal → Except String JVal) (db : Option JVal)
      (tc : ToolCallRec) (kvs : List (String × JVal)),
      jsonLoads tc.arguments = some (.obj kvs) →
      TOOL_FUNCTIONS_KEYS.contains tc.name = false →
      executeToolCall pe impl db tc = .obj [("error", .str ("Unknown tool: " ++ tc.name))] := by
    intro pe impl db tc kvs hl hcont
    have hmem : tc.name ∉ TOOL_FUNCTIONS_KEYS := by simpa using hcont
    rw [executeToolCall, hl]
    cases db with
    | none => simp [injectDb, executeTool, hmem]
    | some d =>
        by_cases hdb : kvs.any (fun p => p.1 = "db") = true
        · simp [injectDb, hdb, executeTool, hmem]
        · simp only [Bool.not_eq_true] at hdb
          simp [injectDb, hdb, executeTool, hmem]
  refine ⟨hpart1, ?_, ?_⟩
  · intro pe impl db tc args args2 e hl hinj hcont himpl
    have hmem : tc.name ∈ TOOL_FUNCTIONS_KEYS := by simpa using hcont
    rw [executeToolCall, hl]
    simp [hinj, executeTool, hmem, himpl]
  · intro pe impl sys u r2 responses st hmax hmsgs hparse2
    have hexec : executeToolCall pe impl none ⟨"call_0", "bogus", "\x7b\x7d"⟩
        = .obj [("error", .str "Unknown tool: bogus")] := by
      have := hpart1 pe impl none ⟨"call_0", "bogus", "\x7b\x7d"⟩ [] rfl (by decide)
      simpa using this
    have hprep1 : callLlmPrep toolsPromptText (st.messages ++ [mkUserMessage u])
        = some (mkSystemMessage (sys ++ ("\n\n" ++ toolsPromptText)) :: [mkUserMessage u],
                mkSystemMessage (sys ++ ("\n\n" ++ toolsPromptText)) :: [mkUserMessage u]) := by
      rw [hmsgs]
      exact callLlmPrep_system toolsPromptText sys [mkUserMessage u]
    have hparse1 : parseToolCalls "TOOL_CALL: bogus(\x7b\x7d)"
        = some [⟨"call_0", "bogus", "\x7b\x7d"⟩] := by decide
    rw [processMessage, hmax]
    rw [show (2 : Nat) = 1 + 1 from rfl,
      runLoop_step_tools _ toolsPromptText 1 _ _ _ 0 _ _ _ hprep1 hparse1]
    have hprep2 : callLlmPrep toolsPromptText
        ((mkSystemMessage (sys ++ ("\n\n" ++ toolsPromptText)) :: [mkUserMessage u])
          ++ [mkAssistantMessage none (some [⟨"call_0", "bogus", "\x7b\x7d"⟩])]
          ++ mkToolResultsFor (executeToolCall pe impl none) [⟨"call_0", "bogus", "\x7b\x7d"⟩])
        = some (mkSystemMessage ((sys ++ ("\n\n" ++ toolsPromptText)) ++ ("\n\n" ++ toolsPromptText))
              :: ([mkUserMessage u]
                ++ [mkAssistantMessage none (some [⟨"call_0", "bogus", "\x7b\x7d"⟩])]
                ++ mkToolResultsFor (executeToolCall pe impl none) [⟨"call_0", "bogus", "\x7b\x7d"⟩]),
            mkSystemMessage ((sys ++ ("\n\n" ++ toolsPromptText)) ++ ("\n\n" ++ toolsPromptText))
              :: ([mkUserMessage u]
                ++ [mkAssistantMessage none (some [⟨"call_0", "bogus", "\x7b\x7d"⟩])]
                ++ mkToolResultsFor (executeToolCall pe impl none) [⟨"call_0", "bogus", "\x7b\x7d"⟩])) := by
      have h1 : (mkSystemMessage (sys ++ ("\n\n" ++ toolsPromptText)) :: [mkUserMessage u])
          ++ [mkAssistantMessage none (some [⟨"call_0", "bogus", "\x7b\x7d"⟩])]
          ++ mkToolResultsFor (executeToolCall pe impl none) [⟨"call_0", "bogus", "\x7b\x7d"⟩]
          = mkSystemMessage (sys ++ ("\n\n" ++ toolsPromptText))
            :: ([mkUserMessage u]
              ++ [mkAssistantMessage none (some [⟨"call_0", "bogus", "\x7b\x7d"⟩])]
              ++ mkToolResultsFor (executeToolCall pe impl none) [⟨"call_0", "bogus", "\x7b\x7d"⟩]) := by
        simp
      rw [h1]
      exact callLlmPrep_system toolsPromptText _ _
    rw [show (1 : Nat) = 0 + 1 from rfl,
      runLoop_step_final _ toolsPromptText 0 _ _ _ _ _ _ hprep2 hparse2]
    simp [mkToolResultsFor, hexec]

/-- C5 witness: the three parts instantiated — unknown name `bogus` with
an empty-object argument, a capability body raising `boom`, and the
two-completion-call run. -/
theorem c5_unknown_tool_and_exception_isolated_witness :
    executeToolCall ⟨fun _ => "jerr", fun _ => "terr"⟩ (fun _ _ => .ok .null) none
        ⟨"call_0", "bogus", "\x7b\x7d"⟩
      = .obj [("error", .str ("Unknown tool: " ++ "bogus"))] ∧
    executeToolCall ⟨fun _ => "jerr", fun _ => "terr"⟩ (fun _ _ => .error "boom") none
        ⟨"call_0", "search_notes", "\x7b\x7d"⟩
      = .obj [("error", .str "boom")] ∧
    processMessage (executeToolCall ⟨fun _ => "jerr", fun _ => "terr"⟩ (fun _ _ => .ok .null) none)
        ["TOOL_CALL: bogus(\x7b\x7d)", "done"] ⟨.str "m", 2, 0, [mkSystemMessage "S"]⟩ "hi"
      = (some "done",
         ⟨.str "m", 2, 0, [
             mkSystemMessage (("S" ++ ("\n\n" ++ toolsPromptText)) ++ ("\n\n" ++ toolsPromptText)),
             mkUserMessage "hi",
             mkAssistantMessage none (some [⟨"call_0", "bogus", "\x7b\x7d"⟩]),
             mkToolResultMessage "call_0" "bogus" (.obj [("error", .str "Unknown tool: bogus")]),
             mkAssistantMessage (some "done") none]⟩,
         2, []) :=
  ⟨c5_unknown_tool_and_exception_isolated.1 ⟨fun _ => "jerr", fun _ => "terr"⟩
      (fun _ _ => .ok .null) none ⟨"call_0", "bogus", "\x7b\x7d"⟩ [] rfl (by decide),
   c5_unknown_tool_and_exception_isolated.2.1 ⟨fun _ => "jerr", fun _ => "terr"⟩
      (fun _ _ => .error "boom") none ⟨"call_0", "search_notes", "\x7b\x7d"⟩ (.obj []) (.obj [])
      "boom" rfl rfl (by decide) rfl,
   c5_unknown_tool_and_exception_isolated.2.2 ⟨fun _ => "jerr", fun _ => "terr"⟩
      (fun _ _ => .ok .null) "S" "hi" "done" [] ⟨.str "m", 2, 0, [mkSystemMessage "S"]⟩
      rfl rfl (by decide)⟩

/-- C6: the claim states the streaming operation leaves the same history a
single `process_message` call would.  `stream_message` appends the user
message itself and then awaits the full `process_message` on the same
text, which appends it again: the stored history carries the user message
twice, unlike a direct `process_message` run, although the single yielded
chunk does equal the final text.  A plain-text gateway reply exhibits
it. -/
theorem c6_stream_duplicates_user_message
    (execTC : ToolCallRec → JVal) (sys u r : String) (st : OrchState)
    (hmax : st.maxIterations = 1)
    (hmsgs : st.messages = [mkSystemMessage sys])
    (hparse : parseToolCalls r = none) :
    streamMessage execTC [r] st u
      = ([r],
         { st with messages := [mkSystemMessage (sys ++ ("\n\n" ++ toolsPromptText)),
             mkUserMessage u, mkUserMessage u, mkAssistantMessage (some r) none] },
         1, []) ∧
    processMessage execTC [r] st u
      = (some r,
         { st with messages := [mkSystemMessage (sys ++ ("\n\n" ++ toolsPromptText)),
             mkUserMessage u, mkAssistantMessage (some r) none] },
         1, []) ∧
    ([mkSystemMessage (sys ++ ("\n\n" ++ toolsPromptText)),
        mkUserMessage u, mkUserMessage u, mkAssistantMessage (some r) none]
      ≠ [mkSystemMessage (sys ++ ("\n\n" ++ toolsPromptText)),
          mkUserMessage u, mkAssistantMessage (some r) none]) := by
  have hdirect : processMessage execTC [r] st u
      = (some r,
         { st with messages := [mkSystemMessage (sys ++ ("\n\n" ++ toolsPromptText)),
             mkUserMessage u, mkAssistantMessage (some r) none] },
         1, []) := by
    have hprep : callLlmPrep toolsPromptText (st.messages ++ [mkUserMessage u])
        = some (mkSystemMessage (sys ++ ("\n\n" ++ toolsPromptText)) :: [mkUserMessage u],
                mkSystemMessage (sys ++ ("\n\n" ++ toolsPromptText)) :: [mkUserMessage u]) := by
      rw [hmsgs]
      exact callLlmPrep_system toolsPromptText sys [mkUserMessage u]
    rw [processMessage, hmax]
    rw [show (1 : Nat) = 0 + 1 from rfl,
      runLoop_step_final _ toolsPromptText 0 _ _ _ _ _ _ hprep hparse]
    simp
  refine ⟨?_, hdirect, ?_⟩
  · have hstream1 : addUserMessage st u = { st with messages := st.messages ++ [mkUserMessage u] } := rfl
    have hprep2 : callLlmPrep toolsPromptText
        ((st.messages ++ [mkUserMessage u]) ++ [mkUserMessage u])
        = some (mkSystemMessage (sys ++ ("\n\n" ++ toolsPromptText))
                  :: [mkUserMessage u, mkUserMessage u],
                mkSystemMessage (sys ++ ("\n\n" ++ toolsPromptText))
                  :: [mkUserMessage u, mkUserMessage u]) := by
      rw [hmsgs]
      have : ([mkSystemMessage sys] ++ [mkUserMessage u]) ++ [mkUserMessage u]
          = mkSystemMessage sys :: [mkUserMessage u, mkUserMessage u] := by simp
      rw [this]
      exact callLlmPrep_system toolsPromptText sys [mkUserMessage u, mkUserMessage u]
    rw [streamMessage, if_neg (by omega)]
    rw [processMessage]
    simp only [addUserMessage, hmax]
    rw [show (1 : Nat) = 0 + 1 from rfl,
      runLoop_step_final _ toolsPromptText 0 _ _ _ _ _ _ hprep2 hparse]
    simp
  · intro h
    have := congrArg List.length h
    simp at this

/-- C8: `export_conversation` followed by `load_conversation` on its
output restores the exported message list (and model) exactly, into any
target state.  The history and model must be canonical JSON values: every
value the orchestrator itself stores is (Python dicts cannot carry
duplicate keys). -/
theorem c8_export_load_round_trip (ts : String) (st st2 : OrchState)
    (hmsgs : jwfList st.messages = true) (hmodel : jwf st.model = true) :
    loadConversation (exportConversation ts st) st2
      = some { st2 with messages := st.messages, model := st.model } := by
  have hwf : jwf (.obj [("model", st.model), ("timestamp", .str ts),
      ("messages", .arr st.messages)]) = true := by
    simp [jwf, jwfMembers, hmodel, hmsgs]
  have hload : jsonLoads (exportConversation ts st)
      = some (.obj [("model", st.model), ("timestamp", .str ts),
          ("messages", .arr st.messages)]) :=
    jsonLoads_dumpsIndent _ hwf
  rw [loadConversation, hload]
  simp [objLookup, List.find?]

/-- C8 witness: a two-message history with a string model, loaded into a
state with a different model and history. -/
theorem c8_export_load_round_trip_witness :
    loadConversation
        (exportConversation "2025-01-01T00:00:00"
          ⟨.str "m", 1, 0, [mkSystemMessage "S", mkUserMessage "hi"]⟩)
        ⟨.str "n", 5, 0, []⟩
      = some ⟨.str "m", 5, 0, [mkSystemMessage "S", mkUserMessage "hi"]⟩ :=
  c8_export_load_round_trip "2025-01-01T00:00:00"
    ⟨.str "m", 1, 0, [mkSystemMessage "S", mkUserMessage "hi"]⟩
    ⟨.str "n", 5, 0, []⟩ rfl rfl

/-- C9: `reset` replaces the history with the single freshly built system
message and changes no other field of the orchestrator; exporting right
after therefore serializes a `messages` list holding exactly that one
system message. -/
theorem c9_reset_then_export (sys ts : String) (st : OrchState)
    (hmodel : jwf st.model = true) :
    resetConv sys st = { st with messages := [mkSystemMessage sys] } ∧
    jsonLoads (exportConversation ts (resetConv sys st))
      = some (.obj [("model", st.model), ("timestamp", .str ts),
          ("messages", .arr [mkSystemMessage sys])]) ∧
    (resetConv sys st).messages.length = 1 := by
  refine ⟨rfl, ?_, rfl⟩
  have hwf : jwf (.obj [("model", st.model), ("timestamp", .str ts),
      ("messages", .arr [mkSystemMessage sys])]) = true := by
    simp [jwf, jwfMembers, jwfList, mkSystemMessage, hmodel]
  exact jsonLoads_dumpsIndent _ hwf

/-- C9 witness: reset of a grown history with a string model. -/
theorem c9_reset_then_export_witness :
    resetConv "You are Aetios." ⟨.str "m", 1, 0, [mkSystemMessage "old", mkUserMessage "hi"]⟩
      = ⟨.str "m", 1, 0, [mkSystemMessage "You are Aetios."]⟩ ∧
    jsonLoads (exportConversation "2025-01-01T00:00:00"
        (resetConv "You are Aetios."
          ⟨.str "m", 1, 0, [mkSystemMessage "old", mkUserMessage "hi"]⟩))
      = some (.obj [("model", .str "m"), ("timestamp", .str "2025-01-01T00:00:00"),
          ("messages", .arr [mkSystemMessage "You are Aetios."])]) ∧
    (resetConv "You are Aetios."
        ⟨.str "m", 1, 0, [mkSystemMessage "old", mkUserMessage "hi"]⟩).messages.length = 1 :=
  c9_reset_then_export "You are Aetios." "2025-01-01T00:00:00"
    ⟨.str "m", 1, 0, [mkSystemMessage "old", mkUserMessage "hi"]⟩ rfl

/-- C10: loading a well-formed JSON object with no `messages` key does not
fail: the history becomes the empty list (which in particular no longer
starts with a system message), and with no `model` key either the stored
model is kept. -/
theorem c10_load_missing_messages (s : String) (st : OrchState)
    (kvs : List (String × JVal))
    (hparse : jsonLoads s = some (.obj kvs))
    (hmsg : objLookup kvs "messages" = none)
    (hmodel : objLookup kvs "model" = none) :
    loadConversation s st = some { st with messages := [] } := by
  rw [loadConversation, hparse]
  simp [hmsg, hmodel]

/-- C10 witness: loading the empty object `\x7b\x7d`. -/
theorem c10_load_missing_messages_witness :
    loadConversation "\x7b\x7d" ⟨.str "m", 1, 0, [mkSystemMessage "S"]⟩
      = some ⟨.str "m", 1, 0, []⟩ :=
  c10_load_missing_messages "\x7b\x7d" ⟨.str "m", 1, 0, [mkSystemMessage "S"]⟩ []
    rfl rfl rfl

/-- C6 witness: one user turn with the gateway replying plain text
`hello`; the streamed run stores the user message twice. -/
theorem c6_stream_duplicates_user_message_witness :
    streamMessage (fun _ => .null) ["hello"] ⟨.str "m", 1, 0, [mkSystemMessage "S"]⟩ "hi"
      = (["hello"],
         ⟨.str "m", 1, 0, [mkSystemMessage ("S" ++ ("\n\n" ++ toolsPromptText)),
             mkUserMessage "hi", mkUserMessage "hi", mkAssistantMessage (some "hello") none]⟩,
         1, []) ∧
    processMessage (fun _ => .null) ["hello"] ⟨.str "m", 1, 0, [mkSystemMessage "S"]⟩ "hi"
      = (some "hello",
         ⟨.str "m", 1, 0, [mkSystemMessage ("S" ++ ("\n\n" ++ toolsPromptText)),
             mkUserMessage "hi", mkAssistantMessage (some "hello") none]⟩,
         1, []) ∧
    ([mkSystemMessage ("S" ++ ("\n\n" ++ toolsPromptText)),
        mkUserMessage "hi", mkUserMessage "hi", mkAssistantMessage (some "hello") none]
      ≠ [mkSystemMessage ("S" ++ ("\n\n" ++ toolsPromptText)),
          mkUserMessage "hi", mkAssistantMessage (some "hello") none]) :=
  c6_stream_duplicates_user_message (fun _ => .null) "S" "hi" "hello"
    ⟨.str "m", 1, 0, [mkSystemMessage "S"]⟩ rfl rfl (by decide)
